import Mathlib

/-!
Verification development for the `custom-select` dropdown library.

The option-tree model and its operations are shallowly embedded from
`src/NestedOptions.ts`, `src/utils.ts`, `src/MultiSelect.ts` and
`src/SingleSelect.ts`.  TypeScript mutates `OptionData` objects in place
through shared references; here every operation is a function from trees to
trees, and "mutating the object returned by `findOption`" is rendered as
updating the first node in pre-order with the given value (which is exactly
the node `findOption` returns).  The `updateParentState` recursion of the
source walks `parent` links without a structural bound, so it is embedded
with explicit fuel; any fuel at least the length of the parent chain gives
the source behaviour, and callers pass the flattened tree size, which is
always enough on acyclic parent chains.
-/

namespace CustomSelect

/-- `OptionData` from `src/types.ts`: one node of the option tree. -/
structure OptionData where
  value : String
  text : String
  label : String
  disabled : Bool
  selected : Bool
  parent : Option String
  children : List OptionData
  level : Nat
  expanded : Bool
  indeterminate : Bool
  deriving Repr

mutual
/-- The per-node step of `flattenOptions`: the node, then its flattened
children (the `traverse` closure of the source pushes the node and
recurses into non-empty child lists, which on empty lists is the same). -/
def flattenOne : OptionData → List OptionData
  | .mk v t l d s p cs lv e i => .mk v t l d s p cs lv e i :: flattenOptions cs

/-- `flattenOptions` from `src/NestedOptions.ts`: pre-order traversal,
each node before its children, preserving source order. -/
def flattenOptions : List OptionData → List OptionData
  | [] => []
  | o :: os => flattenOne o ++ flattenOptions os
end

/-- `findOption` from `src/NestedOptions.ts`: first node (in flatten
order) whose `value` equals the query, if any. -/
def findOption (optionTree : List OptionData) (value : String) : Option OptionData :=
  (flattenOptions optionTree).find? (fun o => o.value == value)

/-- `getChildOptions` from `src/NestedOptions.ts`: all strict
descendants of a node, pre-order. -/
def getChildOptions (option : OptionData) : List OptionData :=
  flattenOptions option.children

/-- `getAllValues` from `src/NestedOptions.ts`. -/
def getAllValues (optionTree : List OptionData) : List String :=
  (flattenOptions optionTree).map (fun o => o.value)

/-- `getSelectedOptions` from `src/NestedOptions.ts`. -/
def getSelectedOptions (optionTree : List OptionData) : List OptionData :=
  (flattenOptions optionTree).filter (fun o => o.selected)

/-- `getLeafOptions` from `src/NestedOptions.ts`: nodes with no children,
in flatten order. -/
def getLeafOptions (optionTree : List OptionData) : List OptionData :=
  (flattenOptions optionTree).filter (fun o => o.children.isEmpty)

mutual
/-- Update the first pre-order node with value `v` by `f`.  This is the
functional rendering of "mutate the object returned by `findOption`":
`findOption` returns the first flatten-order match, and the TypeScript
mutation rewrites exactly that node in place.  Returns the new node and
whether the value was found in its subtree. -/
def updateFirstOne (v : String) (f : OptionData → OptionData) :
    OptionData → OptionData × Bool
  | .mk vv t l d s p cs lv e i =>
    let o : OptionData := .mk vv t l d s p cs lv e i
    if o.value == v then (f o, true)
    else
      let r := updateFirstList v f cs
      ({ o with children := r.1 }, r.2)

/-- List version of `updateFirstOne`; stops at the first subtree that
contains the value. -/
def updateFirstList (v : String) (f : OptionData → OptionData) :
    List OptionData → List OptionData × Bool
  | [] => ([], false)
  | o :: os =>
    let r := updateFirstOne v f o
    if r.2 then (r.1 :: os, true)
    else
      let rs := updateFirstList v f os
      (r.1 :: rs.1, rs.2)
end

/-- Update (by value, first pre-order match) the node `findOption` would
return, leaving the rest of the tree unchanged. -/
def updateFirst (v : String) (f : OptionData → OptionData)
    (optionTree : List OptionData) : List OptionData :=
  (updateFirstList v f optionTree).1

mutual
/-- Set `selected := p o` on every node of a subtree (the
`flattenOptions(...).forEach(o => o.selected = ...)` loops of the source;
`p` reads only the node's identity fields, never its flags). -/
def mapSelOne (p : OptionData → Bool) : OptionData → OptionData
  | .mk v t l d s pr cs lv e i =>
    let o : OptionData := .mk v t l d s pr cs lv e i
    { o with selected := p o, children := mapSelList p cs }

/-- List version of `mapSelOne`. -/
def mapSelList (p : OptionData → Bool) : List OptionData → List OptionData
  | [] => []
  | o :: os => mapSelOne p o :: mapSelList p os
end

/-- `updateParentState` from `src/NestedOptions.ts`, fuel-bounded.
Recomputes the parent's `{selected, indeterminate}` from the count of
selected direct children, then recurses to the grandparent.  The source
recursion is bounded only by the length of the `parent` chain; fuel at
least that length reproduces it exactly. -/
def updateParentState (fuel : Nat) (parentKey : Option String)
    (optionTree : List OptionData) : List OptionData :=
  match fuel, parentKey with
  | 0, _ => optionTree
  | _, none => optionTree
  | fuel + 1, some pv =>
    match findOption optionTree pv with
    | none => optionTree
    | some parent =>
      if parent.children.isEmpty then optionTree
      else
        let selCount := (parent.children.filter (fun c => c.selected)).length
        let total := parent.children.length
        let t' := updateFirst pv (fun p =>
          if selCount = 0 then { p with selected := false, indeterminate := false }
          else if selCount = total then { p with selected := true, indeterminate := false }
          else { p with selected := false, indeterminate := true }) optionTree
        updateParentState fuel parent.parent t'

/-- `updateParentState(option, tree)` as called by the source: the
argument node contributes only its `parent` key; fuel is the flattened
tree size, enough for any acyclic parent chain. -/
def updateParentStateFrom (optionTree : List OptionData) (parentKey : Option String) :
    List OptionData :=
  updateParentState (flattenOptions optionTree).length parentKey optionTree

/-- `selectWithCascade` from `src/NestedOptions.ts`, keyed by the target
node's value (the source receives the object `findOption` returned).
Sets `selected = true` on the node; with cascade, also on every
descendant — the source has no `disabled` check anywhere here. -/
def selectWithCascade (v : String) (optionTree : List OptionData) (cascade : Bool) :
    List OptionData :=
  let t := updateFirst v (fun o =>
    if cascade && !o.children.isEmpty then
      { o with selected := true, children := mapSelList (fun _ => true) o.children }
    else { o with selected := true }) optionTree
  updateParentStateFrom t ((findOption optionTree v).bind (fun o => o.parent))

/-- `deselectWithCascade` from `src/NestedOptions.ts`, keyed by value. -/
def deselectWithCascade (v : String) (optionTree : List OptionData) (cascade : Bool) :
    List OptionData :=
  let t := updateFirst v (fun o =>
    if cascade && !o.children.isEmpty then
      { o with selected := false, indeterminate := false,
               children := mapSelList (fun _ => false) o.children }
    else { o with selected := false, indeterminate := false }) optionTree
  updateParentStateFrom t ((findOption optionTree v).bind (fun o => o.parent))

/-! ### Search utilities (`src/utils.ts`) -/

/-- `SearchStrategy` from `src/types.ts`. -/
inductive SearchStrategy
  | contains
  | startsWith
  | exact
  deriving Repr, DecidableEq

/-- Whitespace stripped by `String.prototype.trim` (the ASCII portion:
space, tab, line feed, carriage return, vertical tab, form feed). -/
def isTrimWhite (c : Char) : Bool :=
  c == ' ' || c == '\t' || c == '\n' || c == '\r' || c == '\x0B' || c == '\x0C'

/-- Strip `isTrimWhite` characters from both ends. -/
def trimChars (cs : List Char) : List Char :=
  ((cs.dropWhile isTrimWhite).reverse.dropWhile isTrimWhite).reverse

/-- `normalizeText` from `src/utils.ts`: `text.toLowerCase().trim()`,
modelled character-wise (per-character lowering, then trim). -/
def normalizeText (text : String) : String :=
  ⟨trimChars (text.data.map Char.toLower)⟩

/-- Substring test on character lists (the `String.prototype.includes`
of the source's `contains` strategy). -/
def hasSub (pat : List Char) : List Char → Bool
  | [] => pat.isEmpty
  | c :: cs => pat.isPrefixOf (c :: cs) || hasSub pat cs

/-- `searchMatch` from `src/utils.ts`: empty query matches everything;
otherwise compare normalized text per strategy. -/
def searchMatch (text query : String) (strategy : SearchStrategy) : Bool :=
  if query.isEmpty then true
  else
    let normalizedText := normalizeText text
    let normalizedQuery := normalizeText query
    match strategy with
    | .exact => normalizedText == normalizedQuery
    | .startsWith => normalizedQuery.data.isPrefixOf normalizedText.data
    | .contains => hasSub normalizedQuery.data normalizedText.data

/-! ### Parsing (`src/NestedOptions.ts`)

The DOM source is modelled as the child list of the `<select>` element:
each child is an `<optgroup>` (label, disabled flag, contained
`<option>`s) or a standalone `<option>`. -/

/-- One native `<option>` element: the fields the parser reads. -/
structure RawOption where
  value : String
  text : String
  disabled : Bool
  selected : Bool
  deriving Repr, DecidableEq

/-- One direct child of the `<select>` element. -/
inductive SelectChild
  | optgroup (label : String) (disabled : Bool) (options : List RawOption)
  | opt (o : RawOption)
  deriving Repr, DecidableEq

/-- The synthesized key of a group node, from `parseNestedOptions`:
the template literal \x60__group_$\x7bobtgroup.label\x7d\x60. -/
def groupKey (label : String) : String :=
  "__group_" ++ label

/-- The level-1 child node `parseNestedOptions` builds from an option
inside an optgroup keyed `gk`. -/
def parsedGroupChild (gk : String) (c : RawOption) : OptionData :=
  { value := c.value, text := c.text, label := c.text, disabled := c.disabled,
    selected := c.selected, parent := some gk, children := [], level := 1,
    expanded := false, indeterminate := false }

/-- The level-0 group node `parseNestedOptions` builds from an optgroup. -/
def parsedGroup (label : String) (disabled : Bool) (opts : List RawOption) : OptionData :=
  { value := groupKey label, text := label, label := label, disabled := disabled,
    selected := false, parent := none,
    children := opts.map (parsedGroupChild (groupKey label)), level := 0,
    expanded := false, indeterminate := false }

/-- The level-0 leaf built from a standalone option (the same shape in
`parseNestedOptions` and `parseFlatOptions`). -/
def parsedLeaf (o : RawOption) : OptionData :=
  { value := o.value, text := o.text, label := o.text, disabled := o.disabled,
    selected := o.selected, parent := none, children := [], level := 0,
    expanded := false, indeterminate := false }

/-- `parseNestedOptions` from `src/NestedOptions.ts`: optgroups become
level-0 group nodes keyed by `groupKey label`, their options become
level-1 children; standalone options become level-0 leaves. -/
def parseNestedOptions (children : List SelectChild) : List OptionData :=
  children.map fun child =>
    match child with
    | .optgroup label disabled opts => parsedGroup label disabled opts
    | .opt o => parsedLeaf o

/-- `selectElement.options`: every `<option>` in document order, whether
inside an optgroup or standalone. -/
def allRawOptions : List SelectChild → List RawOption
  | [] => []
  | .optgroup _ _ opts :: rest => opts ++ allRawOptions rest
  | .opt o :: rest => o :: allRawOptions rest

/-- `parseFlatOptions` from `src/NestedOptions.ts`: every option becomes
a level-0 leaf. -/
def parseFlatOptions (options : List RawOption) : List OptionData :=
  options.map parsedLeaf

/-- `parseSelectElement` from `src/NestedOptions.ts`. -/
def parseSelectElement (children : List SelectChild) (nestedEnabled : Bool) :
    List OptionData :=
  if nestedEnabled then parseNestedOptions children
  else parseFlatOptions (allRawOptions children)

/-- `getSelectedValues` from `src/utils.ts`: values of the natively
selected options. -/
def getSelectedValues (children : List SelectChild) : List String :=
  ((allRawOptions children).filter fun o => o.selected).map fun o => o.value

mutual
/-- The per-node step of `expandAll`: a node with children is expanded
and recursed into, a leaf is untouched. -/
def expandAllOne : OptionData → OptionData
  | .mk v t l d s p cs lv e i =>
    if !cs.isEmpty then .mk v t l d s p (expandAllTree cs) lv true i
    else .mk v t l d s p cs lv e i

/-- `expandAll` from `src/NestedOptions.ts`: set `expanded := true` on
every node that has children, recursively. -/
def expandAllTree : List OptionData → List OptionData
  | [] => []
  | o :: os => expandAllOne o :: expandAllTree os
end

/-! ### Search filtering (shared verbatim by `MultiSelect.optionMatches` /
`SingleSelect.optionMatches` and `filterOptions` — the two components'
methods are textually identical, differing only in which config object
supplies `nestedOptions` / `expandOnSearch` / `searchStrategy`). -/

mutual
/-- `optionMatches`: the node's own text matches, or (if it has
children) some child matches recursively. -/
def optionMatches (strategy : SearchStrategy) (q : String) :
    OptionData → Bool
  | .mk _ t _ _ _ _ cs _ _ _ =>
    if searchMatch t q strategy then true
    else if !cs.isEmpty then optionMatchesList strategy q cs
    else false

/-- `children.some((child) => this.optionMatches(child, query))`. -/
def optionMatchesList (strategy : SearchStrategy) (q : String) :
    List OptionData → Bool
  | [] => false
  | c :: cs => optionMatches strategy q c || optionMatchesList strategy q cs
end

/-- `filterOptions`: walk the top-level list; a matching node is pushed
onto the filtered result and — when nested options and `expandOnSearch`
are both on — mutated to `expanded = true`.  Returns (filtered list,
option tree after the expansion side effects). -/
def filterOptions (nested expandOn : Bool) (strategy : SearchStrategy)
    (q : String) : List OptionData → List OptionData × List OptionData
  | [] => ([], [])
  | o :: os =>
    let m := optionMatches strategy q o
    let o' := if m && nested && expandOn then { o with expanded := true } else o
    let rest := filterOptions nested expandOn strategy q os
    (if m then o' :: rest.1 else rest.1, o' :: rest.2)

/-- `getVisibleOptions` body (both components, textually identical):
every entry of `dataToUse`, followed by its children when it is an
expanded group and nested options are on. -/
def getVisibleOptions (nested : Bool) : List OptionData → List OptionData
  | [] => []
  | o :: os =>
    o :: ((if nested && o.expanded && !o.children.isEmpty then o.children else [])
      ++ getVisibleOptions nested os)

/-! ### Keyboard skip loops (`handleKeyboardNav`, both components —
the ArrowDown/ArrowUp bodies are textually identical).

`focusedOptionIndex` is a JavaScript number; −1 means "nothing focused"
(the value set by `open()`).  The `while` loops of the source have no
structural bound, so they are embedded with fuel: `none` means the loop
has not reached its exit condition within `fuel` iterations — the source
terminates iff some fuel returns `some`. -/

/-- `nextIndex = (this.focusedOptionIndex + 1) % visibleOptions.length`
(JavaScript `%` on the non-negative dividends that arise here agrees
with `Int.emod`). -/
def arrowDownStart (len : Nat) (focused : Int) : Int :=
  (focused + 1) % (len : Int)

/-- `let prevIndex = this.focusedOptionIndex - 1; if (prevIndex < 0)
prevIndex = visibleOptions.length - 1`. -/
def arrowUpStart (len : Nat) (focused : Int) : Int :=
  let p := focused - 1
  if p < 0 then (len : Int) - 1 else p

/-- `while (visibleOptions[nextIndex]?.disabled && nextIndex !==
this.focusedOptionIndex) nextIndex = (nextIndex + 1) %
visibleOptions.length`, fuel-bounded. -/
def skipDownLoop (visible : List OptionData) (focused : Int) :
    Nat → Int → Option Int
  | 0, _ => none
  | fuel + 1, idx =>
    if ((visible.get? idx.toNat).map fun o => o.disabled).getD false && idx != focused
    then skipDownLoop visible focused fuel ((idx + 1) % (visible.length : Int))
    else some idx

/-- `while (visibleOptions[prevIndex]?.disabled && prevIndex !==
this.focusedOptionIndex) { prevIndex = prevIndex - 1; if (prevIndex < 0)
prevIndex = visibleOptions.length - 1 }`, fuel-bounded. -/
def skipUpLoop (visible : List OptionData) (focused : Int) :
    Nat → Int → Option Int
  | 0, _ => none
  | fuel + 1, idx =>
    if ((visible.get? idx.toNat).map fun o => o.disabled).getD false && idx != focused
    then
      let p := idx - 1
      skipUpLoop visible focused fuel (if p < 0 then (visible.length : Int) - 1 else p)
    else some idx

/-! ### MultiSelect (`src/MultiSelect.ts`)

State fields mirror the private fields of the class; DOM handles, the
live region and the instance registry are out of the model (the claims
below concern a single instance's option/selection/interaction state).
Each operation returns the new state together with the list of
notifications it dispatches on the backing element, in dispatch order.
Deferred continuations (debounced search, resize handlers) are the
caller's concern: the filtering pass itself is `msHandleSearch`. -/

/-- The configuration fields of `MultiSelectConfig` that the modelled
operations read. -/
structure MSConfig where
  searchEnabled : Bool
  clearSearchOnClose : Bool
  nestedOptions : Bool
  cascadeSelection : Bool
  expandOnSearch : Bool
  searchStrategy : SearchStrategy
  deriving Repr

/-- The modelled private state of a `MultiSelect` instance. -/
structure MSState where
  isOpen : Bool
  optionData : List OptionData
  selectedValues : List String
  filteredData : Option (List OptionData)
  searchQuery : String
  focusedOptionIndex : Int
  deriving Repr

/-- Notifications a `MultiSelect` dispatches (`change`,
`multiselect:open`, `multiselect:close`, `multiselect:search`,
`multiselect:clear`, `multiselect:expand`, `multiselect:collapse`). -/
inductive MSEvent
  | change
  | opened
  | closed
  | searched
  | cleared
  | expanded
  | collapsed
  deriving Repr, DecidableEq

/-- `MultiSelect.open`: no-op when already open; otherwise opens, resets
the focused index to −1 and dispatches `multiselect:open`.  (Closing the
other registry instances and dropdown positioning are outside this
single-instance model.) -/
def msOpen (s : MSState) : MSState × List MSEvent :=
  if s.isOpen then (s, [])
  else ({ s with isOpen := true, focusedOptionIndex := -1 }, [.opened])

/-- `MultiSelect.close`: no-op when already closed; otherwise closes,
clears search state when configured (the search input exists only when
search is enabled), resets the focused index and dispatches
`multiselect:close`. -/
def msClose (cfg : MSConfig) (s : MSState) : MSState × List MSEvent :=
  if !s.isOpen then (s, [])
  else
    let s1 := { s with isOpen := false }
    let s2 :=
      if cfg.clearSearchOnClose && cfg.searchEnabled then
        { s1 with searchQuery := "", filteredData := none }
      else s1
    ({ s2 with focusedOptionIndex := -1 }, [.closed])

/-- `MultiSelect.setValue`: store the values, mark every node selected
iff its value is in the list (no disabled check, no parent-state
recomputation), dispatch `change`. -/
def msSetValue (values : List String) (s : MSState) : MSState × List MSEvent :=
  let t := mapSelList (fun o => values.contains o.value) s.optionData
  ({ s with selectedValues := values, optionData := t }, [.change])

/-- `MultiSelect.selectAll`: `setValue` of all leaf values (nested) or
all top-level values (flat). -/
def msSelectAll (cfg : MSConfig) (s : MSState) : MSState × List MSEvent :=
  let allValues :=
    if cfg.nestedOptions then (getLeafOptions s.optionData).map fun o => o.value
    else s.optionData.map fun o => o.value
  msSetValue allValues s

/-- `MultiSelect.clearAll`: `setValue([])`, then dispatch
`multiselect:clear` after the `change` from `setValue`. -/
def msClearAll (s : MSState) : MSState × List MSEvent :=
  let r := msSetValue [] s
  (r.1, r.2 ++ [.cleared])

/-- `MultiSelect.handleOptionClick`: toggle the (already-validated)
target node, cascading when configured, recompute parent states when
nested, recompute `selectedValues` from the selected leaves, dispatch
`change`.  The target is the node `findOption` returned in
`handleOptionsClick`. -/
def msHandleOptionClick (cfg : MSConfig) (v : String) (s : MSState) :
    MSState × List MSEvent :=
  match findOption s.optionData v with
  | none => (s, [])
  | some o =>
    let t :=
      if o.selected then
        if cfg.nestedOptions && cfg.cascadeSelection then
          deselectWithCascade v s.optionData true
        else updateFirst v (fun n => { n with selected := false }) s.optionData
      else
        if cfg.nestedOptions && cfg.cascadeSelection then
          selectWithCascade v s.optionData true
        else updateFirst v (fun n => { n with selected := true }) s.optionData
    let t2 := if cfg.nestedOptions then updateParentStateFrom t o.parent else t
    let newSelected := ((getLeafOptions t2).filter fun n => n.selected).map fun n => n.value
    ({ s with optionData := t2, selectedValues := newSelected }, [.change])

/-- `MultiSelect.handleOptionsClick` (selection path): resolve the
clicked value; unknown or disabled targets are silent no-ops; otherwise
delegate to `handleOptionClick`.  (The expand-icon sub-path sits behind
the same guard.) -/
def msHandleOptionsClick (cfg : MSConfig) (v : String) (s : MSState) :
    MSState × List MSEvent :=
  match findOption s.optionData v with
  | none => (s, [])
  | some o =>
    if o.disabled then (s, [])
    else msHandleOptionClick cfg v s

/-- `MultiSelect.handleSearch`: store the query; an empty query resets
`filteredData` to `null` (touching nothing else in the tree), a
non-empty query runs `filterOptions` (with its expansion side effects)
and stores the filtered list; either way the focused index resets to −1
and `multiselect:search` is dispatched. -/
def msHandleSearch (cfg : MSConfig) (query : String) (s : MSState) :
    MSState × List MSEvent :=
  if query.isEmpty then
    ({ s with searchQuery := query, filteredData := none,
              focusedOptionIndex := -1 }, [.searched])
  else
    let r := filterOptions cfg.nestedOptions cfg.expandOnSearch cfg.searchStrategy
      query s.optionData
    ({ s with searchQuery := query, optionData := r.2, filteredData := some r.1,
              focusedOptionIndex := -1 }, [.searched])

/-! ### SingleSelect (`src/SingleSelect.ts`) -/

/-- The configuration fields of `SingleSelectConfig` that the modelled
operations read. -/
structure SSConfig where
  searchEnabled : Bool
  clearSearchOnClose : Bool
  closeOnSelect : Bool
  allowDeselect : Bool
  nestedOptions : Bool
  expandOnSearch : Bool
  defaultExpanded : Bool
  searchStrategy : SearchStrategy
  deriving Repr

/-- The modelled private state of a `SingleSelect` instance. -/
structure SSState where
  isOpen : Bool
  optionData : List OptionData
  selectedValue : Option String
  filteredData : Option (List OptionData)
  searchQuery : String
  focusedOptionIndex : Int
  deriving Repr

/-- Notifications a `SingleSelect` dispatches. -/
inductive SSEvent
  | change
  | opened
  | closed
  | searched
  | cleared
  | expanded
  | collapsed
  deriving Repr, DecidableEq

/-- `SingleSelect.parseOptions`: parse the native children, optionally
expand all groups, read the native selection (first selected option,
empty string treated as null) and mark the corresponding tree node.
Returns the tree and `selectedValue`. -/
def ssParseOptions (cfg : SSConfig) (children : List SelectChild) :
    List OptionData × Option String :=
  let tree0 := parseSelectElement children cfg.nestedOptions
  let tree1 :=
    if cfg.nestedOptions && cfg.defaultExpanded then expandAllTree tree0 else tree0
  let selected := getSelectedValues children
  let selectedValue :=
    match selected with
    | [] => none
    | v :: _ => if v == "" then none else some v
  let tree2 :=
    match selectedValue with
    | none => tree1
    | some v => updateFirst v (fun o => { o with selected := true }) tree1
  (tree2, selectedValue)

/-- The state of a freshly constructed `SingleSelect` (after `init`):
closed, tree and selection from `parseOptions`, no filter, no focus. -/
def ssInitState (cfg : SSConfig) (children : List SelectChild) : SSState :=
  let r := ssParseOptions cfg children
  { isOpen := false, optionData := r.1, selectedValue := r.2,
    filteredData := none, searchQuery := "", focusedOptionIndex := -1 }

/-- `SingleSelect.handleOptionClick`: guard on disabled, remember
`wasSelected`, deselect every node, then select the target again unless
it was selected and `allowDeselect` is on (in that case the selection is
cleared); the empty-string value is stored as null; dispatch `change`.
(The deferred `closeOnSelect` timeout is a scheduled continuation, not
part of the synchronous step.) -/
def ssHandleOptionClick (cfg : SSConfig) (v : String) (s : SSState) :
    SSState × List SSEvent :=
  match findOption s.optionData v with
  | none => (s, [])
  | some o =>
    if o.disabled then (s, [])
    else
      let wasSelected := o.selected
      let t1 := mapSelList (fun _ => false) s.optionData
      if !(wasSelected && cfg.allowDeselect) then
        let t2 := updateFirst v (fun n => { n with selected := true }) t1
        ({ s with optionData := t2,
                  selectedValue := if v == "" then none else some v }, [.change])
      else
        ({ s with optionData := t1, selectedValue := none }, [.change])

/-- `SingleSelect.handleOptionsClick` (selection path): resolve the
clicked value; unknown or disabled targets are silent no-ops; otherwise
delegate to `handleOptionClick` (which re-checks disabled). -/
def ssHandleOptionsClick (cfg : SSConfig) (v : String) (s : SSState) :
    SSState × List SSEvent :=
  match findOption s.optionData v with
  | none => (s, [])
  | some o =>
    if o.disabled then (s, [])
    else ssHandleOptionClick cfg v s

/-- The `value === '' ? null : value` normalization of
`SingleSelect.setValue`. -/
def normalizeValue (v : Option String) : Option String :=
  if v == some "" then none else v

/-- `SingleSelect.setValue` without its `allowDeselect` branch (the code
path taken whenever that branch's condition is false, and the body of
`clear`'s inner `setValue(null)` call): normalize the empty string to
null, return unchanged if the value is unchanged, otherwise store it,
mark exactly the matching nodes selected, and dispatch `change`. -/
def ssSetValueRaw (v : Option String) (s : SSState) : SSState × List SSEvent :=
  if normalizeValue v == s.selectedValue then (s, [])
  else
    ({ s with selectedValue := normalizeValue v,
              optionData := mapSelList
                (fun o => some o.value == normalizeValue v) s.optionData },
     [.change])

/-- `SingleSelect.clear`: no-op when nothing is selected; otherwise
`setValue(null)` (whose `allowDeselect` branch cannot fire) followed by
the `singleselect:clear` notification. -/
def ssClear (s : SSState) : SSState × List SSEvent :=
  if s.selectedValue == none then (s, [])
  else
    let r := ssSetValueRaw none s
    (r.1, r.2 ++ [.cleared])

/-- `SingleSelect.setValue`: normalize the empty string to null; if the
normalized value equals the current selection and `allowDeselect` is on
(and the value is not null), delegate to `clear`; otherwise run the
plain assignment path. -/
def ssSetValue (cfg : SSConfig) (v : Option String) (s : SSState) :
    SSState × List SSEvent :=
  if normalizeValue v == s.selectedValue && cfg.allowDeselect &&
      normalizeValue v != none then
    ssClear s
  else ssSetValueRaw v s

/-- `SingleSelect.refresh`: re-run `parseOptions` against the backing
element's current children (rendering only; `filteredData` and the
interaction fields are untouched). -/
def ssRefresh (cfg : SSConfig) (children : List SelectChild) (s : SSState) : SSState :=
  let r := ssParseOptions cfg children
  { s with optionData := r.1, selectedValue := r.2 }

/-- `SingleSelect.open`: no-op when already open; otherwise opens,
resets the focused index to −1 and dispatches `singleselect:open`. -/
def ssOpen (s : SSState) : SSState × List SSEvent :=
  if s.isOpen then (s, [])
  else ({ s with isOpen := true, focusedOptionIndex := -1 }, [.opened])

/-- `SingleSelect.close`: no-op when already closed; otherwise closes,
clears search state when configured, resets the focused index and
dispatches `singleselect:close`. -/
def ssClose (cfg : SSConfig) (s : SSState) : SSState × List SSEvent :=
  if !s.isOpen then (s, [])
  else
    let s1 := { s with isOpen := false }
    let s2 :=
      if cfg.clearSearchOnClose && cfg.searchEnabled then
        { s1 with searchQuery := "", filteredData := none }
      else s1
    ({ s2 with focusedOptionIndex := -1 }, [.closed])

/-- `SingleSelect.handleSearch` (same structure as the MultiSelect
handler). -/
def ssHandleSearch (cfg : SSConfig) (query : String) (s : SSState) :
    SSState × List SSEvent :=
  if query.isEmpty then
    ({ s with searchQuery := query, filteredData := none,
              focusedOptionIndex := -1 }, [.searched])
  else
    let r := filterOptions cfg.nestedOptions cfg.expandOnSearch cfg.searchStrategy
      query s.optionData
    ({ s with searchQuery := query, optionData := r.2, filteredData := some r.1,
              focusedOptionIndex := -1 }, [.searched])

/-- The public operations quantified over in the single-select
exclusivity claim: option activation, `setValue`, `clear`, `refresh`. -/
inductive SSOp
  | click (v : String)
  | setVal (v : Option String)
  | clearSel
  | refreshItems (children : List SelectChild)

/-- Apply one public operation (dropping the notifications). -/
def ssApplyOp (cfg : SSConfig) (s : SSState) : SSOp → SSState
  | .click v => (ssHandleOptionsClick cfg v s).1
  | .setVal v => (ssSetValue cfg v s).1
  | .clearSel => (ssClear s).1
  | .refreshItems children => ssRefresh cfg children s

/-- Apply a sequence of public operations, left to right. -/
def ssApplyOps (cfg : SSConfig) (s : SSState) (ops : List SSOp) : SSState :=
  ops.foldl (ssApplyOp cfg) s

/-! ### Test fixtures -/

/-- A top-level leaf node. -/
def mkLeaf (v : String) (dis sel : Bool) : OptionData :=
  { value := v, text := v, label := v, disabled := dis, selected := sel,
    parent := none, children := [], level := 0, expanded := false,
    indeterminate := false }

/-- A level-1 leaf child of the group keyed `pk`. -/
def mkChild (v pk : String) (dis sel : Bool) : OptionData :=
  { value := v, text := v, label := v, disabled := dis, selected := sel,
    parent := some pk, children := [], level := 1, expanded := false,
    indeterminate := false }

/-- A top-level group node. -/
def mkGroup (v : String) (cs : List OptionData) : OptionData :=
  { value := v, text := v, label := v, disabled := false, selected := false,
    parent := none, children := cs, level := 0, expanded := false,
    indeterminate := false }

/-- A multi-select configuration with nesting and cascade on. -/
def demoMSConfig : MSConfig :=
  { searchEnabled := true, clearSearchOnClose := true, nestedOptions := true,
    cascadeSelection := true, expandOnSearch := true, searchStrategy := .contains }

/-- A single-select configuration with `allowDeselect` off. -/
def demoSSConfig : SSConfig :=
  { searchEnabled := true, clearSearchOnClose := true, closeOnSelect := true,
    allowDeselect := false, nestedOptions := false, expandOnSearch := true,
    defaultExpanded := false, searchStrategy := .contains }

/-- A single-select configuration with `allowDeselect` on. -/
def demoSSConfigDesel : SSConfig :=
  { demoSSConfig with allowDeselect := true }

/-- The tree used to refute C1: an enabled group `g` with a disabled
child `a` and an enabled child `b`. -/
def cascadeDemoTree : List OptionData :=
  [mkGroup "g" [mkChild "a" "g" true false, mkChild "b" "g" false false]]

/-- Witness for `disabled_target_activation_noop` at a concrete state. -/
def msDisabledState : MSState :=
  { isOpen := true, optionData := [mkLeaf "d" true false],
    selectedValues := [], filteredData := none, searchQuery := "",
    focusedOptionIndex := -1 }

/-- Single-select state for the same witness. -/
def ssDisabledState : SSState :=
  { isOpen := true, optionData := [mkLeaf "d" true false],
    selectedValue := none, filteredData := none, searchQuery := "",
    focusedOptionIndex := -1 }

/-- A two-element, all-disabled visible list. -/
def allDisabledPair : List OptionData :=
  [mkLeaf "1" true false, mkLeaf "2" true false]

/-- An open multi-select state. -/
def msOpenDemo : MSState :=
  { isOpen := true, optionData := [mkLeaf "x" false false],
    selectedValues := [], filteredData := none, searchQuery := "",
    focusedOptionIndex := -1 }

/-- A closed multi-select state. -/
def msClosedDemo : MSState := { msOpenDemo with isOpen := false }

/-- An open single-select state. -/
def ssOpenDemo : SSState :=
  { isOpen := true, optionData := [mkLeaf "x" false false],
    selectedValue := none, filteredData := none, searchQuery := "",
    focusedOptionIndex := -1 }

/-- A closed single-select state. -/
def ssClosedDemo : SSState := { ssOpenDemo with isOpen := false }

/-- The item list used to refute C9: an optgroup labelled `A` next to a
real standalone option whose value is the string `__group_A`. -/
def collidingChildren : List SelectChild :=
  [.optgroup "A" false [{ value := "a1", text := "A1", disabled := false, selected := false }],
   .opt { value := "__group_A", text := "Fake", disabled := false, selected := false }]

/-- A single-select state with nothing selected. -/
def ssEmptySelDemo : SSState :=
  { isOpen := false, optionData := [mkLeaf "x" false false],
    selectedValue := none, filteredData := none, searchQuery := "",
    focusedOptionIndex := -1 }

/-- The per-node expansion side effect of `filterOptions`. -/
def expandUpd (nested expandOn : Bool) (o : OptionData) : OptionData :=
  if nested && expandOn then { o with expanded := true } else o

/-- The tree used to refute C6's side-effect clause: a group whose own
label matches the query while no descendant's does. -/
def ownMatchGroupTree : List OptionData :=
  [mkGroup "fruits" [mkChild "apple" "fruits" false false]]

/-- The tree used to refute C7's flatten-equality clause: a collapsed
group whose subtree does not match the query. -/
def collapsedGroupTree : List OptionData :=
  [mkGroup "g" [mkChild "a" "g" false false]]

/-- The state used in the C7 counterexample. -/
def c7State : MSState :=
  { isOpen := true, optionData := collapsedGroupTree, selectedValues := [],
    filteredData := none, searchQuery := "", focusedOptionIndex := -1 }

/-! ### Proof infrastructure: tree search and flag updates -/

mutual
/-- `findOption` as a direct tree recursion (proof infrastructure; the
bridge to the source definition is `findOption_eq_findList`). -/
def findOne (v : String) : OptionData → Option OptionData
  | .mk vv t l d s p cs lv e i =>
    let o : OptionData := .mk vv t l d s p cs lv e i
    if o.value == v then some o else findList v cs

/-- List version of `findOne`: first match in pre-order. -/
def findList (v : String) : List OptionData → Option OptionData
  | [] => none
  | o :: os =>
    match findOne v o with
    | some r => some r
    | none => findList v os
end

/-- The number of selected nodes in a forest. -/
def selCount (t : List OptionData) : Nat :=
  ((flattenOptions t).filter fun o => o.selected).length

/-- The number of selected nodes in one subtree. -/
def selCountOne (o : OptionData) : Nat :=
  ((flattenOne o).filter fun o => o.selected).length

/-- `SingleSelect.getValue`: the current scalar selection. -/
def ssGetValue (s : SSState) : Option String :=
  s.selectedValue

/-- The tree for the C5 witness: one enabled, unselected leaf `x`. -/
def c5Tree : List OptionData := [mkLeaf "x" false false]

/-- The state for the C5 witness. -/
def c5State : SSState :=
  { isOpen := true, optionData := c5Tree, selectedValue := none,
    filteredData := none, searchQuery := "", focusedOptionIndex := -1 }

/-! ### C4 — single-select exclusivity: parse-level lemmas -/

/-- The (value, selected) pairs the nested parser produces, read off the
item list (proof infrastructure). -/
def rawPairs : List SelectChild → List (String × Bool)
  | [] => []
  | .optgroup label _ opts :: rest =>
    (groupKey label, false) :: ((opts.map fun o => (o.value, o.selected)) ++ rawPairs rest)
  | .opt o :: rest => (o.value, o.selected) :: rawPairs rest

/-- The (value, selected) projection of a node. -/
def valSel (o : OptionData) : String × Bool :=
  (o.value, o.selected)

/-- The data-model preconditions on a parsed item list: the parsed
tree's values are pairwise distinct (the "value is a unique key"
invariant of the spec's data model), and at most one native option is
flagged selected (native non-multiple selects enforce this). -/
def ItemsWF (cfg : SSConfig) (children : List SelectChild) : Prop :=
  (getAllValues (parseSelectElement children cfg.nestedOptions)).Nodup ∧
  ((allRawOptions children).filter fun o => o.selected).length ≤ 1

/-- The single-select data-model invariant: pairwise-distinct values
and at most one selected node across the whole tree. -/
def SSInv (s : SSState) : Prop :=
  (getAllValues s.optionData).Nodup ∧ selCount s.optionData ≤ 1

/-- Well-formedness of one public operation: a `refresh` must read a
well-formed item list; the in-memory operations need nothing. -/
def SSOpWF (cfg : SSConfig) : SSOp → Prop
  | .refreshItems children => ItemsWF cfg children
  | _ => True

/-- The item list for the C4 witness. -/
def c4Items : List SelectChild :=
  [.opt { value := "x", text := "X", disabled := false, selected := false },
   .optgroup "G" false [{ value := "y", text := "Y", disabled := false, selected := true }]]

/-- The operation sequence for the C4 witness. -/
def c4Ops : List SSOp :=
  [.click "x", .setVal (some "y"), .refreshItems c4Items, .clearSel]

/-! ### C3 — tri-state parent recomputation -/

/-- One public child toggle: select or deselect through the source's
cascade functions (each of which ends with the parent-state
recomputation), under the component's cascade setting. -/
def triStep (cascade : Bool) (t : List OptionData) (op : String × Bool) :
    List OptionData :=
  if op.2 then selectWithCascade op.1 t cascade
  else deselectWithCascade op.1 t cascade

/-- Shape of the single-group scenario as it evolves: the group keeps
its key and stays top-level, and its children keep their values,
leafness and parent back-pointers. -/
def triShape (p q : OptionData) : Prop :=
  q.value = p.value ∧ q.parent = none ∧
  q.children.map (fun x => x.value) = p.children.map (fun x => x.value) ∧
  ∀ x ∈ q.children, x.children = [] ∧ x.parent = some p.value

/-- Tri-state correctness of a group node: its
`{selected, indeterminate}` pair agrees with the count of selected
direct children (0 selected ⇒ both false; all selected ⇒ selected only;
strictly partial ⇒ indeterminate only). -/
def triFlags (q : OptionData) : Prop :=
  ((q.children.filter fun c => c.selected).length = 0 →
      q.selected = false ∧ q.indeterminate = false) ∧
  (0 < (q.children.filter fun c => c.selected).length →
      (q.children.filter fun c => c.selected).length = q.children.length →
      q.selected = true ∧ q.indeterminate = false) ∧
  (0 < (q.children.filter fun c => c.selected).length →
      (q.children.filter fun c => c.selected).length < q.children.length →
      q.selected = false ∧ q.indeterminate = true)

/-- The group for the C3 witness. -/
def c3Group : OptionData :=
  { value := "g", text := "G", label := "G", disabled := false, selected := false,
    parent := none,
    children := [mkChild "a" "g" false false, mkChild "b" "g" false false],
    level := 0, expanded := false, indeterminate := false }

/-! ### Theorems -/

/-- `flattenOne` unfolded through the structure eta rule. -/
theorem flattenOne_eq (o : OptionData) :
    flattenOne o = o :: flattenOptions o.children := by
  cases o; rfl

/-- `flattenOptions` on a cons cell. -/
theorem flattenOptions_cons (o : OptionData) (os : List OptionData) :
    flattenOptions (o :: os) = o :: (flattenOptions o.children ++ flattenOptions os) := by
  cases o; rfl

/-- `updateFirstOne` unfolded through the structure eta rule. -/
theorem updateFirstOne_eq (v : String) (f : OptionData → OptionData) (o : OptionData) :
    updateFirstOne v f o =
      if o.value == v then (f o, true)
      else
        ({ o with children := (updateFirstList v f o.children).1 },
         (updateFirstList v f o.children).2) := by
  cases o; rfl

/-- `mapSelOne` unfolded through the structure eta rule. -/
theorem mapSelOne_eq (p : OptionData → Bool) (o : OptionData) :
    mapSelOne p o = { o with selected := p o, children := mapSelList p o.children } := by
  cases o; rfl

/-- `optionMatches` unfolded through the structure eta rule. -/
theorem optionMatches_eq (strategy : SearchStrategy) (q : String) (o : OptionData) :
    optionMatches strategy q o =
      if searchMatch o.text q strategy then true
      else if !o.children.isEmpty then optionMatchesList strategy q o.children
      else false := by
  cases o; rfl

/-! ### C1 — disabled invariant -/

/-- C1 (amended): a disabled node is never the direct target of a
selection change — both components' `handleOptionsClick` resolve the
clicked value and return, with no state change and no notification, when
the target is disabled.  (The original claim's universal form fails: see
the counterexample — `selectWithCascade` cascades onto disabled
descendants, and `setValue` / `selectAll` select any listed value,
disabled or not.) -/
theorem disabled_target_activation_noop (mcfg : MSConfig) (scfg : SSConfig)
    (v : String) (ms : MSState) (ss : SSState) (mo so : OptionData)
    (hm : findOption ms.optionData v = some mo) (hmd : mo.disabled = true)
    (hs : findOption ss.optionData v = some so) (hsd : so.disabled = true) :
    msHandleOptionsClick mcfg v ms = (ms, []) ∧
    ssHandleOptionsClick scfg v ss = (ss, []) := by
  constructor
  · unfold msHandleOptionsClick
    rw [hm]
    simp [hmd]
  · unfold ssHandleOptionsClick
    rw [hs]
    simp [hsd]

/-- C1 counterexample: cascading a selection over the enabled group `g`
flips its disabled descendant `a` to `selected = true` — the code has no
disabled check in `selectWithCascade`, so disabled leaves are not
skipped. -/
theorem disabled_cascade_counterexample :
    (findOption (selectWithCascade "g" cascadeDemoTree true) "a").map
      (fun o => (o.disabled, o.selected)) = some (true, true) := by decide

theorem disabled_target_activation_noop_witness :
    (findOption msDisabledState.optionData "d" = some (mkLeaf "d" true false) ∧
     (mkLeaf "d" true false).disabled = true ∧
     findOption ssDisabledState.optionData "d" = some (mkLeaf "d" true false)) ∧
    (msHandleOptionsClick demoMSConfig "d" msDisabledState = (msDisabledState, []) ∧
     ssHandleOptionsClick demoSSConfig "d" ssDisabledState = (ssDisabledState, [])) :=
  ⟨⟨rfl, rfl, rfl⟩,
   disabled_target_activation_noop demoMSConfig demoSSConfig "d"
     msDisabledState ssDisabledState (mkLeaf "d" true false) (mkLeaf "d" true false)
     rfl rfl rfl rfl⟩

/-! ### C2 — keyboard skip-loop termination (refuted: the loop diverges
from the on-open focused index −1) -/

/-- C2: for an all-disabled visible list and the on-open focused index
−1, the ArrowDown and ArrowUp skip loops never reach their exit
condition, at any fuel: the `nextIndex !== focusedIndex` guard can never
fire because the running index stays in `[0, length)` while the focused
index is −1.  (For a focused index inside the list the guard does bound
the loop to one cycle; the degenerate −1 case is the divergence.) -/
theorem keyboard_skip_allDisabled_diverges (visible : List OptionData)
    (fuel : Nat) (idx : Int)
    (hdis : ∀ o ∈ visible, o.disabled = true)
    (h0 : 0 ≤ idx) (hlt : idx < (visible.length : Int)) :
    skipDownLoop visible (-1) fuel idx = none ∧
    skipUpLoop visible (-1) fuel idx = none := by
  induction fuel generalizing idx with
  | zero => exact ⟨rfl, rfl⟩
  | succ n ih =>
    have hnat : idx.toNat < visible.length := by omega
    have hget : visible.get? idx.toNat = some (visible.get ⟨idx.toNat, hnat⟩) :=
      List.get?_eq_get hnat
    have hd : (visible.get ⟨idx.toNat, hnat⟩).disabled = true :=
      hdis _ (visible.get_mem _ _)
    have hcond :
        (((visible.get? idx.toNat).map fun o => o.disabled).getD false
          && idx != (-1 : Int)) = true := by
      rw [hget]
      simp only [Option.map_some', Option.getD_some, hd, Bool.true_and,
        bne_iff_ne, ne_eq]
      omega
    have hlen : 0 < (visible.length : Int) := by omega
    constructor
    · rw [skipDownLoop, hcond]
      simp only [if_true]
      exact (ih _ (Int.emod_nonneg _ (by omega)) (Int.emod_lt_of_pos _ hlen)).1
    · rw [skipUpLoop, hcond]
      simp only [if_true]
      by_cases hc : idx - 1 < 0
      · simpa [hc] using (ih _ (by omega) (by omega)).2
      · simpa [hc] using (ih _ (by omega) (by omega)).2

theorem keyboard_skip_allDisabled_diverges_witness :
    ((∀ o ∈ allDisabledPair, o.disabled = true) ∧
      (0 : Int) ≤ arrowDownStart allDisabledPair.length (-1) ∧
      arrowDownStart allDisabledPair.length (-1) < (allDisabledPair.length : Int)) ∧
    (skipDownLoop allDisabledPair (-1) 5 (arrowDownStart allDisabledPair.length (-1)) = none ∧
     skipUpLoop allDisabledPair (-1) 5 (arrowDownStart allDisabledPair.length (-1)) = none) :=
  ⟨⟨by decide, by decide, by decide⟩,
   keyboard_skip_allDisabled_diverges allDisabledPair 5 _
     (by decide) (by decide) (by decide)⟩

/-! ### C8 — no-op event suppression -/

/-- C8: `open()` while open and `close()` while closed perform no state
change and dispatch no notification, in both components. -/
theorem open_close_noop_suppression (mcfg : MSConfig) (scfg : SSConfig)
    (ms : MSState) (ss : SSState) :
    (ms.isOpen = true → msOpen ms = (ms, [])) ∧
    (ms.isOpen = false → msClose mcfg ms = (ms, [])) ∧
    (ss.isOpen = true → ssOpen ss = (ss, [])) ∧
    (ss.isOpen = false → ssClose scfg ss = (ss, [])) := by
  refine ⟨fun h => ?_, fun h => ?_, fun h => ?_, fun h => ?_⟩ <;>
    simp [msOpen, msClose, ssOpen, ssClose, h]

theorem open_close_noop_suppression_witness :
    (msOpenDemo.isOpen = true ∧ msClosedDemo.isOpen = false ∧
     ssOpenDemo.isOpen = true ∧ ssClosedDemo.isOpen = false) ∧
    (msOpen msOpenDemo = (msOpenDemo, []) ∧
     msClose demoMSConfig msClosedDemo = (msClosedDemo, []) ∧
     ssOpen ssOpenDemo = (ssOpenDemo, []) ∧
     ssClose demoSSConfig ssClosedDemo = (ssClosedDemo, [])) :=
  ⟨⟨rfl, rfl, rfl, rfl⟩,
   ⟨(open_close_noop_suppression demoMSConfig demoSSConfig msOpenDemo ssOpenDemo).1 rfl,
    (open_close_noop_suppression demoMSConfig demoSSConfig msClosedDemo ssClosedDemo).2.1 rfl,
    (open_close_noop_suppression demoMSConfig demoSSConfig msOpenDemo ssOpenDemo).2.2.1 rfl,
    (open_close_noop_suppression demoMSConfig demoSSConfig msClosedDemo ssClosedDemo).2.2.2 rfl⟩⟩

/-! ### C9 — synthesized group keys -/

/-- C9 (amended): every synthesized group key carries the reserved
`__group_` prefix, so it is distinct from every real option value that
does not itself begin with that prefix.  (The original claim's
unconditional distinctness fails: see the counterexample.) -/
theorem groupKey_ne_unreserved_value (label v : String)
    (hv : v.data.take 8 ≠ "__group_".data) : groupKey label ≠ v := by
  intro h
  apply hv
  rw [← h]
  show ((("__group_" : String) ++ label).data).take 8 = _
  rw [String.data_append]
  have h8 : ("__group_" : String).data.length = 8 := by decide
  rw [← h8, List.take_left]

/-- C9 counterexample: parsing `collidingChildren` synthesizes a group
node (one child) whose derived key `__group_A` equals the value of a
real, selectable option present in the source. -/
theorem groupKey_collision_counterexample :
    ((parseNestedOptions collidingChildren).map fun o => (o.value, o.children.length))
      = [("__group_A", 1), ("__group_A", 0)] ∧
    "__group_A" ∈ (allRawOptions collidingChildren).map (fun o => o.value) := by
  decide

theorem groupKey_ne_unreserved_value_witness :
    ("apple".data.take 8 ≠ ("__group_" : String).data) ∧ groupKey "A" ≠ "apple" :=
  ⟨by decide, groupKey_ne_unreserved_value "A" "apple" (by decide)⟩

/-! ### C10 — single-select no-change no-ops -/

/-- C10: `SingleSelect.setValue` normalizes `""` to null; when the
normalized value equals the current selection and the `allowDeselect`
branch cannot fire (deselect off, or the value is null), it returns with
no state change and no notification; `clear()` with no current selection
likewise changes nothing and dispatches nothing. -/
theorem setValue_clear_noChange_noop (cfg : SSConfig) (s : SSState) (v : Option String)
    (hEq : normalizeValue v = s.selectedValue)
    (hNo : cfg.allowDeselect = false ∨ normalizeValue v = none) :
    ssSetValue cfg v s = (s, []) ∧
    (s.selectedValue = none → ssClear s = (s, [])) := by
  have hraw : ssSetValueRaw v s = (s, []) := by
    unfold ssSetValueRaw
    rw [hEq]
    simp
  constructor
  · unfold ssSetValue
    have hcond : (normalizeValue v == s.selectedValue && cfg.allowDeselect &&
        normalizeValue v != none) = false := by
      rcases hNo with h | h
      · rw [h]; simp
      · rw [h, ← hEq, h]; simp
    rw [hcond]
    simpa using hraw
  · intro h
    unfold ssClear
    simp [h]

theorem setValue_clear_noChange_noop_witness :
    (normalizeValue (some "") = ssEmptySelDemo.selectedValue ∧
      (demoSSConfigDesel.allowDeselect = false ∨ normalizeValue (some "") = none)) ∧
    (ssSetValue demoSSConfigDesel (some "") ssEmptySelDemo = (ssEmptySelDemo, []) ∧
     ssClear ssEmptySelDemo = (ssEmptySelDemo, [])) :=
  ⟨⟨by decide, Or.inr (by decide)⟩,
   ⟨(setValue_clear_noChange_noop demoSSConfigDesel ssEmptySelDemo (some "")
       (by decide) (Or.inr (by decide))).1,
    (setValue_clear_noChange_noop demoSSConfigDesel ssEmptySelDemo (some "")
       (by decide) (Or.inr (by decide))).2 (by decide)⟩⟩

/-! ### C6 / C7 — filtering and the search round trip -/

mutual
/-- A node matches iff its own text matches or some strict descendant's
text matches: the recursive OR of `optionMatches` unfolded to the
descendant set `getChildOptions`. -/
theorem optionMatches_eq_any (strategy : SearchStrategy) (q : String) :
    ∀ o : OptionData, optionMatches strategy q o =
      (searchMatch o.text q strategy ||
        (flattenOptions o.children).any fun d => searchMatch d.text q strategy)
  | .mk v t l d s p cs lv e i => by
    rw [optionMatches]
    by_cases h : searchMatch t q strategy
    · simp [h]
    · cases cs with
      | nil => simp [h, optionMatchesList, flattenOptions]
      | cons c cs' =>
        simp only [h, List.isEmpty_cons, Bool.not_false, if_false, if_true]
        rw [optionMatchesList_eq_any strategy q (c :: cs')]
        simp [h]

/-- `optionMatchesList` is `any` of the own-text matches over the
flattened list. -/
theorem optionMatchesList_eq_any (strategy : SearchStrategy) (q : String) :
    ∀ ts : List OptionData, optionMatchesList strategy q ts =
      ((flattenOptions ts).any fun d => searchMatch d.text q strategy)
  | [] => by simp [optionMatchesList, flattenOptions]
  | o :: os => by
    rw [optionMatchesList, optionMatches_eq_any strategy q o,
      optionMatchesList_eq_any strategy q os, flattenOptions_cons]
    simp [Bool.or_assoc]
end

/-- The expansion side effect does not change the node's value. -/
theorem expandUpd_value (nested expandOn : Bool) (o : OptionData) :
    (expandUpd nested expandOn o).value = o.value := by
  unfold expandUpd; split <;> rfl

/-- The expansion side effect does not change the node's children. -/
theorem expandUpd_children (nested expandOn : Bool) (o : OptionData) :
    (expandUpd nested expandOn o).children = o.children := by
  unfold expandUpd; split <;> rfl

/-- The filtered list returned by `filterOptions` is exactly the
matching top-level nodes, each with the expansion side effect applied. -/
theorem filterOptions_fst (nested expandOn : Bool) (strategy : SearchStrategy)
    (q : String) (t : List OptionData) :
    (filterOptions nested expandOn strategy q t).1 =
      (t.filter (optionMatches strategy q)).map (expandUpd nested expandOn) := by
  induction t with
  | nil => rfl
  | cons o os ih =>
    rw [filterOptions]
    by_cases h : optionMatches strategy q o
    · simp [h, ih, expandUpd]
    · simp [h, ih]

/-- The option tree after `filterOptions`: every matching top-level node
gets the expansion side effect, every other node is untouched. -/
theorem filterOptions_snd (nested expandOn : Bool) (strategy : SearchStrategy)
    (q : String) (t : List OptionData) :
    (filterOptions nested expandOn strategy q t).2 =
      t.map fun o =>
        if optionMatches strategy q o then expandUpd nested expandOn o else o := by
  induction t with
  | nil => rfl
  | cons o os ih =>
    rw [filterOptions]
    by_cases h : optionMatches strategy q o
    · simp [h, ih, expandUpd]
    · simp [h, ih]

/-- C6 (amended): for a non-empty query, filtering retains exactly the
top-level nodes whose subtree contains a match — a node is retained iff
its own label matches or some descendant's label matches (for a leaf,
iff its own label matches) — and, when nested options and
`expandOnSearch` are both configured, every retained node is marked
`expanded = true` as a side effect, whether its match is its own or a
descendant's; non-retained nodes keep their `expanded` flag.  (The
original claim exempted nodes whose own label matches from the side
effect; the counterexample shows they are marked too.) -/
theorem filterOptions_retention_and_expansion (nested expandOn : Bool)
    (strategy : SearchStrategy) (q : String) (t : List OptionData)
    (hq : q ≠ "") :
    ((filterOptions nested expandOn strategy q t).1 =
      (t.filter (optionMatches strategy q)).map (expandUpd nested expandOn)) ∧
    ((filterOptions nested expandOn strategy q t).2 =
      t.map fun o =>
        if optionMatches strategy q o then expandUpd nested expandOn o else o) ∧
    (∀ o ∈ t, optionMatches strategy q o =
      (searchMatch o.text q strategy ||
        (getChildOptions o).any fun d => searchMatch d.text q strategy)) := by
  refine ⟨filterOptions_fst .., filterOptions_snd .., fun o _ => ?_⟩
  exact optionMatches_eq_any strategy q o

/-- C6 counterexample: the query matches the group's own label only
(`apple` does not match), yet filtering still marks the group
`expanded = true`. -/
theorem expandOnSearch_ownMatch_counterexample :
    searchMatch "fruits" "fruit" .contains = true ∧
    searchMatch "apple" "fruit" .contains = false ∧
    ((filterOptions true true .contains "fruit" ownMatchGroupTree).2.map
      fun o => (o.value, o.expanded)) = [("fruits", true)] := by decide

theorem filterOptions_retention_and_expansion_witness :
    ("fruit" : String) ≠ "" ∧
    ((filterOptions true true .contains "fruit" ownMatchGroupTree).1 =
      (ownMatchGroupTree.filter (optionMatches .contains "fruit")).map
        (expandUpd true true)) :=
  ⟨by decide,
   (filterOptions_retention_and_expansion true true .contains "fruit"
     ownMatchGroupTree (by decide)).1⟩

/-- Trees of leaves flatten to themselves. -/
theorem flattenOptions_of_leaves (t : List OptionData)
    (h : ∀ o ∈ t, o.children = []) : flattenOptions t = t := by
  induction t with
  | nil => rfl
  | cons o os ih =>
    rw [flattenOptions_cons, h o (by simp)]
    simp only [flattenOptions, List.nil_append]
    rw [ih fun o ho => h o (by simp [ho])]

/-- On trees of leaves the visible list is the list itself. -/
theorem getVisibleOptions_of_leaves (nested : Bool) (t : List OptionData)
    (h : ∀ o ∈ t, o.children = []) : getVisibleOptions nested t = t := by
  induction t with
  | nil => rfl
  | cons o os ih =>
    rw [getVisibleOptions, h o (by simp)]
    simp [ih fun o ho => h o (by simp [ho])]

/-- C7 (amended): searching a non-empty query and then the empty query
resets `filteredData` to `null` (not a filter pass that matches
everything); the clearing pass itself leaves the option tree — in
particular every `expanded` flag — untouched; and on a flat tree (no
nesting, the children lists empty) the resulting view carries exactly
the value sequence of the original unfiltered flatten.  (For a nested
tree whose collapsed groups were not expanded by the search, the view
omits their hidden children while the flatten includes them, refuting
the original claim's "equal by value set to the unfiltered flatten";
see the counterexample.) -/
theorem search_roundtrip (cfg : MSConfig) (s : MSState) (q : String)
    (hq : q.isEmpty = false) :
    ((msHandleSearch cfg "" (msHandleSearch cfg q s).1).1.filteredData = none) ∧
    ((msHandleSearch cfg "" (msHandleSearch cfg q s).1).1.optionData =
      (msHandleSearch cfg q s).1.optionData) ∧
    ((∀ o ∈ s.optionData, o.children = []) →
      (getVisibleOptions cfg.nestedOptions
        (((msHandleSearch cfg "" (msHandleSearch cfg q s).1).1.filteredData).getD
          (msHandleSearch cfg "" (msHandleSearch cfg q s).1).1.optionData)).map
            (fun o => o.value) = getAllValues s.optionData) := by
  have h1 : msHandleSearch cfg q s =
      ({ s with searchQuery := q,
                optionData := (filterOptions cfg.nestedOptions cfg.expandOnSearch
                  cfg.searchStrategy q s.optionData).2,
                filteredData := some (filterOptions cfg.nestedOptions cfg.expandOnSearch
                  cfg.searchStrategy q s.optionData).1,
                focusedOptionIndex := -1 }, [.searched]) := by
    unfold msHandleSearch
    rw [hq]
    simp
  have h2 : ∀ s' : MSState, msHandleSearch cfg "" s' =
      ({ s' with searchQuery := "", filteredData := none,
                 focusedOptionIndex := -1 }, [.searched]) := by
    intro s'
    unfold msHandleSearch
    rfl
  rw [h1, h2]
  refine ⟨rfl, rfl, fun hleaves => ?_⟩
  simp only [Option.getD_none]
  rw [filterOptions_snd]
  have hleaves' : ∀ o ∈ (s.optionData.map fun o =>
      if optionMatches cfg.searchStrategy q o then
        expandUpd cfg.nestedOptions cfg.expandOnSearch o else o), o.children = [] := by
    intro o ho
    rcases List.mem_map.mp ho with ⟨o0, ho0, rfl⟩
    have hc := hleaves o0 ho0
    split
    · rw [expandUpd_children]; exact hc
    · exact hc
  rw [getVisibleOptions_of_leaves _ _ hleaves']
  unfold getAllValues
  rw [flattenOptions_of_leaves _ hleaves]
  rw [List.map_map]
  apply List.map_congr_left
  intro o ho
  simp only [Function.comp_apply]
  split
  · rw [expandUpd_value]
  · rfl

/-- C7 counterexample: after searching "zzz" (no match, so the collapsed
group stays collapsed) and clearing the query, the restored view shows
only the group while the unfiltered flatten also contains its hidden
child — the view is not equal by value set to the unfiltered flatten. -/
theorem search_roundtrip_counterexample :
    ((getVisibleOptions true
        (((msHandleSearch demoMSConfig "" (msHandleSearch demoMSConfig "zzz" c7State).1).1.filteredData).getD
          (msHandleSearch demoMSConfig "" (msHandleSearch demoMSConfig "zzz" c7State).1).1.optionData)).map
      fun o => o.value) = ["g"] ∧
    getAllValues
      (msHandleSearch demoMSConfig "" (msHandleSearch demoMSConfig "zzz" c7State).1).1.optionData
      = ["g", "a"] := by decide

theorem search_roundtrip_witness :
    ("an" : String).isEmpty = false ∧
    ((msHandleSearch demoMSConfig "" (msHandleSearch demoMSConfig "an" c7State).1).1.filteredData
      = none) :=
  ⟨rfl, (search_roundtrip demoMSConfig c7State "an" rfl).1⟩

/-- `findOne` unfolded through the structure eta rule. -/
theorem findOne_eq (v : String) (o : OptionData) :
    findOne v o = if o.value == v then some o else findList v o.children := by
  cases o; rfl

/-- `flattenOptions` distributes over append. -/
theorem flattenOptions_append (A B : List OptionData) :
    flattenOptions (A ++ B) = flattenOptions A ++ flattenOptions B := by
  induction A with
  | nil => rfl
  | cons o os ih =>
    rw [List.cons_append, flattenOptions, flattenOptions, ih, List.append_assoc]

mutual
/-- Searching the flattened subtree of one node is `findOne`. -/
theorem find?_flattenOne (v : String) :
    ∀ o : OptionData, (flattenOne o).find? (fun n => n.value == v) = findOne v o
  | .mk vv t l d s p cs lv e i => by
    rw [flattenOne, findOne]
    by_cases h : (vv == v) = true
    · simp [List.find?_cons, h]
    · simp only [List.find?_cons, h, cond_false]
      exact find?_flattenList v cs

/-- Searching a flattened forest is `findList`. -/
theorem find?_flattenList (v : String) :
    ∀ t : List OptionData, (flattenOptions t).find? (fun n => n.value == v) = findList v t
  | [] => rfl
  | o :: os => by
    rw [flattenOptions, List.find?_append, find?_flattenOne v o, findList,
      find?_flattenList v os]
    cases findOne v o <;> simp [Option.or]
end

/-- The bridge: the source `findOption` equals the recursive `findList`. -/
theorem findOption_eq_findList (t : List OptionData) (v : String) :
    findOption t v = findList v t :=
  find?_flattenList v t

/-- Field lemma for `mapSelOne`. -/
theorem mapSelOne_value (p : OptionData → Bool) (o : OptionData) :
    (mapSelOne p o).value = o.value := by cases o; rfl

/-- Field lemma for `mapSelOne`. -/
theorem mapSelOne_disabled (p : OptionData → Bool) (o : OptionData) :
    (mapSelOne p o).disabled = o.disabled := by cases o; rfl

/-- Field lemma for `mapSelOne`. -/
theorem mapSelOne_selected (p : OptionData → Bool) (o : OptionData) :
    (mapSelOne p o).selected = p o := by cases o; rfl

/-- Field lemma for `mapSelOne`. -/
theorem mapSelOne_parent (p : OptionData → Bool) (o : OptionData) :
    (mapSelOne p o).parent = o.parent := by cases o; rfl

mutual
/-- Searching after a selection re-mark finds the re-marked node. -/
theorem findOne_mapSel (p : OptionData → Bool) (v : String) :
    ∀ o : OptionData, findOne v (mapSelOne p o) = (findOne v o).map (mapSelOne p)
  | .mk vv t l d s pr cs lv e i => by
    rw [findOne_eq, findOne_eq (o := .mk vv t l d s pr cs lv e i),
      mapSelOne_value]
    by_cases h : ((OptionData.mk vv t l d s pr cs lv e i).value == v) = true
    · simp [h]
    · simp only [h, if_false, Option.map]
      have : (mapSelOne p (.mk vv t l d s pr cs lv e i)).children = mapSelList p cs := rfl
      rw [this]
      exact findList_mapSel p v cs

/-- List version of `findOne_mapSel`. -/
theorem findList_mapSel (p : OptionData → Bool) (v : String) :
    ∀ ts : List OptionData, findList v (mapSelList p ts) = (findList v ts).map (mapSelOne p)
  | [] => rfl
  | o :: os => by
    rw [mapSelList, findList, findList, findOne_mapSel p v o]
    cases findOne v o <;> simp [findList_mapSel p v os]
end

mutual
/-- The found flag of `updateFirstOne` is search success. -/
theorem updateFirstOne_found (v : String) (f : OptionData → OptionData) :
    ∀ o : OptionData, (updateFirstOne v f o).2 = (findOne v o).isSome ∧
      ((updateFirstOne v f o).2 = false → (updateFirstOne v f o).1 = o)
  | .mk vv t l d s p cs lv e i => by
    have ihl := updateFirstList_found v f cs
    cases h : ((vv : String) == v) with
    | true =>
      constructor
      · simp [updateFirstOne_eq, findOne_eq, h]
      · intro h2
        simp [updateFirstOne_eq, h] at h2
    | false =>
      constructor
      · simp [updateFirstOne_eq, findOne_eq, h, ihl.1]
      · intro h2
        simp only [updateFirstOne_eq, findOne_eq] at h2 ⊢
        simp [h] at h2 ⊢
        exact ihl.2 h2

/-- List version of `updateFirstOne_found`. -/
theorem updateFirstList_found (v : String) (f : OptionData → OptionData) :
    ∀ ts : List OptionData, (updateFirstList v f ts).2 = (findList v ts).isSome ∧
      ((updateFirstList v f ts).2 = false → (updateFirstList v f ts).1 = ts)
  | [] => ⟨rfl, fun _ => rfl⟩
  | o :: os => by
    have iho := updateFirstOne_found v f o
    have ihl := updateFirstList_found v f os
    rw [updateFirstList, findList]
    cases h2 : (updateFirstOne v f o).2 with
    | true =>
      have hs : (findOne v o).isSome = true := by rw [← iho.1]; exact h2
      rcases Option.isSome_iff_exists.mp hs with ⟨x, hx⟩
      simp [h2, hx]
    | false =>
      have hs : (findOne v o).isSome = false := by rw [← iho.1]; exact h2
      have hnone : findOne v o = none := by
        cases hh : findOne v o
        · rfl
        · rw [hh] at hs; exact absurd hs (by simp)
      simp only [h2, Bool.false_eq_true, if_false, hnone]
      refine ⟨ihl.1, fun hl => ?_⟩
      rw [iho.2 h2, ihl.2 hl]
end

mutual
/-- Searching after `updateFirst` for the same value finds the image of
the original node, provided `f` preserves values. -/
theorem findOne_updateFirst (v : String) (f : OptionData → OptionData)
    (hf : ∀ o, (f o).value = o.value) :
    ∀ o : OptionData, findOne v ((updateFirstOne v f o).1) = (findOne v o).map f
  | .mk vv t l d s p cs lv e i => by
    cases h : ((vv : String) == v) with
    | true =>
      have hfv : ((f (.mk vv t l d s p cs lv e i)).value == v) = true := by
        rw [hf]; exact h
      simp [updateFirstOne_eq, findOne_eq, h, hfv]
    | false =>
      have ihl := findList_updateFirst v f hf cs
      simp [updateFirstOne_eq, findOne_eq, h, ihl]

/-- List version of `findOne_updateFirst`. -/
theorem findList_updateFirst (v : String) (f : OptionData → OptionData)
    (hf : ∀ o, (f o).value = o.value) :
    ∀ ts : List OptionData,
      findList v ((updateFirstList v f ts).1) = (findList v ts).map f
  | [] => rfl
  | o :: os => by
    have iho := updateFirstOne_found v f o
    rw [updateFirstList]
    cases h2 : (updateFirstOne v f o).2 with
    | true =>
      have hs : (findOne v o).isSome = true := by rw [← iho.1]; exact h2
      rcases Option.isSome_iff_exists.mp hs with ⟨x, hx⟩
      simp only [h2, if_true]
      rw [findList, findOne_updateFirst v f hf o, hx, findList, hx]
      rfl
    | false =>
      have hs : (findOne v o).isSome = false := by rw [← iho.1]; exact h2
      have hnone : findOne v o = none := by
        cases hh : findOne v o
        · rfl
        · rw [hh] at hs; exact absurd hs (by simp)
      simp only [h2, Bool.false_eq_true, if_false]
      rw [findList, iho.2 h2, hnone, findList, hnone]
      exact findList_updateFirst v f hf os
end

mutual
/-- Flattening commutes with selection re-marking. -/
theorem flattenOne_mapSel (p : OptionData → Bool) :
    ∀ o : OptionData, flattenOne (mapSelOne p o) = (flattenOne o).map (mapSelOne p)
  | .mk vv t l d s pr cs lv e i => by
    show flattenOne (mapSelOne p (.mk vv t l d s pr cs lv e i)) = _
    rw [show mapSelOne p (.mk vv t l d s pr cs lv e i) =
      .mk vv t l d (p (.mk vv t l d s pr cs lv e i)) pr (mapSelList p cs) lv e i from rfl]
    rw [flattenOne, flattenOne, flattenOptions_mapSel p cs]
    rfl

/-- List version of `flattenOne_mapSel`. -/
theorem flattenOptions_mapSel (p : OptionData → Bool) :
    ∀ ts : List OptionData,
      flattenOptions (mapSelList p ts) = (flattenOptions ts).map (mapSelOne p)
  | [] => rfl
  | o :: os => by
    rw [mapSelList, flattenOptions, flattenOptions, flattenOne_mapSel p o,
      flattenOptions_mapSel p os, List.map_append]
end

/-- `selCount` on a cons cell. -/
theorem selCount_cons (o : OptionData) (os : List OptionData) :
    selCount (o :: os) = selCountOne o + selCount os := by
  unfold selCount selCountOne
  rw [flattenOptions, List.filter_append, List.length_append]

/-- `selCountOne` splits into the node's own flag and its children. -/
theorem selCountOne_eq (o : OptionData) :
    selCountOne o = (if o.selected then 1 else 0) + selCount o.children := by
  unfold selCountOne selCount
  rw [flattenOne_eq, List.filter_cons]
  by_cases h : o.selected <;> simp [h] <;> omega

/-- `selCount` is the length of `getSelectedOptions`. -/
theorem selCount_eq_getSelected (t : List OptionData) :
    selCount t = (getSelectedOptions t).length := rfl

/-- Selection re-marking makes the selected count the count of nodes
satisfying the predicate. -/
theorem selCount_mapSel (p : OptionData → Bool) (t : List OptionData) :
    selCount (mapSelList p t) = ((flattenOptions t).filter fun o => p o).length := by
  unfold selCount
  rw [flattenOptions_mapSel, List.filter_map]
  rw [List.length_map]
  congr 1
  apply List.filter_congr
  intro o _
  simp [mapSelOne_selected]

mutual
/-- A flag update through `updateFirst` changes the selected count by at
most one. -/
theorem selCount_updateFirstOne (v : String) (f : OptionData → OptionData)
    (hcf : ∀ o, selCountOne (f o) ≤ selCountOne o + 1) :
    ∀ o : OptionData, selCountOne ((updateFirstOne v f o).1) ≤ selCountOne o + 1
  | .mk vv t l d s p cs lv e i => by
    cases h : ((vv : String) == v) with
    | true =>
      rw [updateFirstOne_eq]
      simp only [show ((OptionData.mk vv t l d s p cs lv e i).value == v) = true from h,
        if_true]
      exact hcf _
    | false =>
      have ihl := selCount_updateFirstList v f hcf cs
      rw [updateFirstOne_eq]
      simp only [show ((OptionData.mk vv t l d s p cs lv e i).value == v) = false from h,
        Bool.false_eq_true, if_false]
      rw [selCountOne_eq, selCountOne_eq]
      show (if s = true then 1 else 0) + selCount (updateFirstList v f cs).1 ≤
        (if s = true then 1 else 0) + selCount cs + 1
      omega

/-- List version of `selCount_updateFirstOne`. -/
theorem selCount_updateFirstList (v : String) (f : OptionData → OptionData)
    (hcf : ∀ o, selCountOne (f o) ≤ selCountOne o + 1) :
    ∀ ts : List OptionData, selCount ((updateFirstList v f ts).1) ≤ selCount ts + 1
  | [] => Nat.le_succ _
  | o :: os => by
    have iho := selCount_updateFirstOne v f hcf o
    have ihl := selCount_updateFirstList v f hcf os
    have hid := (updateFirstOne_found v f o).2
    rw [updateFirstList]
    cases h2 : (updateFirstOne v f o).2 with
    | true =>
      simp only [if_true]
      rw [selCount_cons, selCount_cons]
      omega
    | false =>
      simp only [Bool.false_eq_true, if_false]
      rw [selCount_cons, selCount_cons, hid h2]
      omega
end

mutual
/-- Value sequences are preserved by flag updates through `updateFirst`
(for `f` preserving both value and children). -/
theorem flattenVals_updateFirstOne (v : String) (f : OptionData → OptionData)
    (hf : ∀ o, (f o).value = o.value ∧ (f o).children = o.children) :
    ∀ o : OptionData,
      (flattenOne ((updateFirstOne v f o).1)).map (fun n => n.value) =
        (flattenOne o).map fun n => n.value
  | .mk vv t l d s p cs lv e i => by
    cases h : ((vv : String) == v) with
    | true =>
      rw [updateFirstOne_eq]
      simp only [show ((OptionData.mk vv t l d s p cs lv e i).value == v) = true from h,
        if_true]
      rw [flattenOne_eq, flattenOne_eq, (hf _).2, List.map_cons, List.map_cons, (hf _).1]
    | false =>
      have ihl := flattenVals_updateFirstList v f hf cs
      rw [updateFirstOne_eq]
      simp only [show ((OptionData.mk vv t l d s p cs lv e i).value == v) = false from h,
        Bool.false_eq_true, if_false]
      rw [flattenOne_eq, flattenOne_eq, List.map_cons, List.map_cons]
      simp only [show ({ OptionData.mk vv t l d s p cs lv e i with
          children := (updateFirstList v f
            (OptionData.mk vv t l d s p cs lv e i).children).1 } : OptionData).value
          = vv from rfl,
        show ({ OptionData.mk vv t l d s p cs lv e i with
          children := (updateFirstList v f
            (OptionData.mk vv t l d s p cs lv e i).children).1 } : OptionData).children
          = (updateFirstList v f cs).1 from rfl,
        show (OptionData.mk vv t l d s p cs lv e i).value = vv from rfl,
        show (OptionData.mk vv t l d s p cs lv e i).children = cs from rfl]
      rw [ihl]

/-- List version of `flattenVals_updateFirstOne`. -/
theorem flattenVals_updateFirstList (v : String) (f : OptionData → OptionData)
    (hf : ∀ o, (f o).value = o.value ∧ (f o).children = o.children) :
    ∀ ts : List OptionData,
      (flattenOptions ((updateFirstList v f ts).1)).map (fun n => n.value) =
        (flattenOptions ts).map fun n => n.value
  | [] => rfl
  | o :: os => by
    have iho := flattenVals_updateFirstOne v f hf o
    have ihl := flattenVals_updateFirstList v f hf os
    have hid := (updateFirstOne_found v f o).2
    rw [updateFirstList]
    cases h2 : (updateFirstOne v f o).2 with
    | true =>
      simp only [if_true]
      rw [flattenOptions, flattenOptions, List.map_append, List.map_append, iho]
    | false =>
      simp only [Bool.false_eq_true, if_false]
      rw [flattenOptions, flattenOptions, List.map_append, List.map_append, hid h2, ihl]
end

/-! ### C5 — single-select toggle-deselect -/

/-- C5: selecting a non-disabled, not-yet-selected value `v` twice in a
row — by option activation or by `setValue(v)` — clears the selection
entirely when `allowDeselect` is configured (`getValue()` is null), and
leaves `v` selected when `allowDeselect` is off. -/
theorem allowDeselect_toggle (cfg cfg' : SSConfig) (s : SSState) (v : String)
    (o : OptionData)
    (hfind : findOption s.optionData v = some o)
    (hdis : o.disabled = false) (hsel : o.selected = false) (hv : v ≠ "")
    (hde : cfg.allowDeselect = true) (hnde : cfg'.allowDeselect = false) :
    ssGetValue (ssHandleOptionsClick cfg v (ssHandleOptionsClick cfg v s).1).1 = none ∧
    ssGetValue (ssHandleOptionsClick cfg' v (ssHandleOptionsClick cfg' v s).1).1 = some v ∧
    (s.selectedValue = none →
      ssGetValue (ssSetValue cfg (some v) (ssSetValue cfg (some v) s).1).1 = none ∧
      ssGetValue (ssSetValue cfg' (some v) (ssSetValue cfg' (some v) s).1).1 = some v) := by
  have hbeq : (v == "") = false := beq_eq_false_iff_ne.mpr hv
  have step1 : ∀ c : SSConfig,
      ssHandleOptionsClick c v s =
        ({ s with
            optionData := updateFirst v (fun n => { n with selected := true })
              (mapSelList (fun _ => false) s.optionData),
            selectedValue := some v }, [.change]) := by
    intro c
    unfold ssHandleOptionsClick ssHandleOptionClick
    rw [hfind]
    simp [hdis, hsel, hbeq]
  have hfv : ∀ n : OptionData,
      (({ n with selected := true } : OptionData)).value = n.value := fun n => rfl
  have hfind2 : findOption (updateFirst v (fun n => { n with selected := true })
      (mapSelList (fun _ => false) s.optionData)) v
      = some { (mapSelOne (fun _ => false) o) with selected := true } := by
    rw [findOption_eq_findList]
    unfold updateFirst
    rw [findList_updateFirst v _ hfv, findList_mapSel (fun _ => false) v,
      ← findOption_eq_findList, hfind]
    rfl
  have hmapdis : (mapSelOne (fun _ => false) o).disabled = false := by
    rw [mapSelOne_disabled]; exact hdis
  refine ⟨?_, ?_, ?_⟩
  · rw [step1 cfg]
    unfold ssHandleOptionsClick ssHandleOptionClick ssGetValue
    simp only [hfind2]
    simp [hmapdis, hde]
  · rw [step1 cfg']
    unfold ssHandleOptionsClick ssHandleOptionClick ssGetValue
    simp only [hfind2]
    simp [hmapdis, hnde, hbeq]
  · intro hnone
    have hsome_beq : ((some v : Option String) == some "") = false := by
      rw [beq_eq_false_iff_ne]; simpa using hv
    have hnorm : normalizeValue (some v) = some v := by
      unfold normalizeValue; rw [hsome_beq]; rfl
    have hraw1 : ssSetValueRaw (some v) s =
        ({ s with
            selectedValue := some v,
            optionData := mapSelList (fun n => some n.value == some v) s.optionData },
         [.change]) := by
      unfold ssSetValueRaw
      rw [hnorm, hnone]
      simp
    have hstep1 : ∀ c : SSConfig, ssSetValue c (some v) s =
        ({ s with
            selectedValue := some v,
            optionData := mapSelList (fun n => some n.value == some v) s.optionData },
         [.change]) := by
      intro c
      unfold ssSetValue
      rw [hnorm, hnone]
      simpa using hraw1
    constructor
    · rw [hstep1 cfg]
      unfold ssSetValue ssClear ssSetValueRaw ssGetValue
      rw [hnorm]
      simp [hde, normalizeValue]
    · rw [hstep1 cfg']
      unfold ssSetValue ssSetValueRaw ssGetValue
      rw [hnorm]
      simp [hnde]

theorem allowDeselect_toggle_witness :
    (findOption c5State.optionData "x" = some (mkLeaf "x" false false) ∧
      (mkLeaf "x" false false).disabled = false ∧
      (mkLeaf "x" false false).selected = false ∧ ("x" : String) ≠ "" ∧
      demoSSConfigDesel.allowDeselect = true ∧ demoSSConfig.allowDeselect = false) ∧
    (ssGetValue (ssHandleOptionsClick demoSSConfigDesel "x"
        (ssHandleOptionsClick demoSSConfigDesel "x" c5State).1).1 = none ∧
      ssGetValue (ssHandleOptionsClick demoSSConfig "x"
        (ssHandleOptionsClick demoSSConfig "x" c5State).1).1 = some "x" ∧
      ssGetValue (ssSetValue demoSSConfigDesel (some "x")
        (ssSetValue demoSSConfigDesel (some "x") c5State).1).1 = none) :=
  ⟨⟨rfl, rfl, rfl, by decide, rfl, rfl⟩,
   (allowDeselect_toggle demoSSConfigDesel demoSSConfig c5State "x"
      (mkLeaf "x" false false) rfl rfl rfl (by decide) rfl rfl).1,
   (allowDeselect_toggle demoSSConfigDesel demoSSConfig c5State "x"
      (mkLeaf "x" false false) rfl rfl rfl (by decide) rfl rfl).2.1,
   ((allowDeselect_toggle demoSSConfigDesel demoSSConfig c5State "x"
      (mkLeaf "x" false false) rfl rfl rfl (by decide) rfl rfl).2.2 rfl).1⟩

/-- The children of a parsed group are leaves. -/
theorem parsedGroup_children_leaves (label : String) (dis : Bool)
    (opts : List RawOption) :
    ∀ o ∈ (parsedGroup label dis opts).children, o.children = [] := by
  intro o ho
  rcases List.mem_map.mp ho with ⟨c, _, rfl⟩
  rfl

/-- The nested parse produces exactly the `rawPairs` value/selection
profile. -/
theorem parseNested_pairs (children : List SelectChild) :
    (flattenOptions (parseNestedOptions children)).map valSel = rawPairs children := by
  induction children with
  | nil => rfl
  | cons c rest ih =>
    cases c with
    | optgroup label dis opts =>
      rw [show parseNestedOptions (.optgroup label dis opts :: rest) =
        parsedGroup label dis opts :: parseNestedOptions rest from rfl]
      rw [flattenOptions_cons,
        flattenOptions_of_leaves _ (parsedGroup_children_leaves label dis opts)]
      rw [List.map_cons, List.map_append, ih, rawPairs]
      show valSel (parsedGroup label dis opts) ::
        ((opts.map (parsedGroupChild (groupKey label))).map valSel ++ rawPairs rest) = _
      rw [List.map_map]
      rfl
    | opt o =>
      rw [show parseNestedOptions (.opt o :: rest) =
        parsedLeaf o :: parseNestedOptions rest from rfl]
      rw [flattenOptions_cons]
      show valSel (parsedLeaf o) :: ((flattenOptions []).map valSel ++
        (flattenOptions (parseNestedOptions rest)).map valSel) = _
      rw [ih]
      rfl

/-- The flat parse produces the raw options' value/selection profile. -/
theorem parseFlat_pairs (options : List RawOption) :
    (flattenOptions (parseFlatOptions options)).map valSel =
      options.map fun o => (o.value, o.selected) := by
  induction options with
  | nil => rfl
  | cons o rest ih =>
    rw [show parseFlatOptions (o :: rest) = parsedLeaf o :: parseFlatOptions rest from rfl]
    rw [flattenOptions_cons]
    show valSel (parsedLeaf o) :: ((flattenOptions []).map valSel ++
      (flattenOptions (parseFlatOptions rest)).map valSel) = _
    rw [ih]
    rfl

mutual
/-- `expandAll` changes only `expanded` flags: the value/selection
profile of one subtree is untouched. -/
theorem expandAllOne_pairs : ∀ o : OptionData,
    (flattenOne (expandAllOne o)).map valSel = (flattenOne o).map valSel
  | .mk v t l d s p cs lv e i => by
    rw [expandAllOne]
    cases hcs : cs with
    | nil => rfl
    | cons c cs' =>
      simp only [List.isEmpty_cons, Bool.not_false, if_true]
      rw [flattenOne, flattenOne]
      show valSel (.mk v t l d s p (expandAllTree (c :: cs')) lv true i) ::
        (flattenOptions (expandAllTree (c :: cs'))).map valSel = _
      rw [expandAllTree_pairs (c :: cs')]
      rfl

/-- List version of `expandAllOne_pairs`. -/
theorem expandAllTree_pairs : ∀ t : List OptionData,
    (flattenOptions (expandAllTree t)).map valSel = (flattenOptions t).map valSel
  | [] => rfl
  | o :: os => by
    rw [expandAllTree, flattenOptions, flattenOptions, List.map_append,
      List.map_append, expandAllOne_pairs o, expandAllTree_pairs os]
end

/-- Values are the first components of the value/selection profile. -/
theorem getAllValues_eq_pairs_fst (t : List OptionData) :
    getAllValues t = ((flattenOptions t).map valSel).map Prod.fst := by
  unfold getAllValues
  rw [List.map_map]
  rfl

/-- The selected count is the count of `true` second components. -/
theorem selCount_eq_pairs_countP (t : List OptionData) :
    selCount t = ((flattenOptions t).map valSel).countP fun pr => pr.2 := by
  unfold selCount
  rw [List.countP_map, ← List.countP_eq_length_filter]
  rfl

/-- The selected count of `rawPairs` is the selected count of the raw
options. -/
theorem rawPairs_countP (children : List SelectChild) :
    (rawPairs children).countP (fun pr => pr.2) =
      ((allRawOptions children).filter fun o => o.selected).length := by
  induction children with
  | nil => rfl
  | cons c rest ih =>
    cases c with
    | optgroup label dis opts =>
      rw [rawPairs, allRawOptions, List.countP_cons, List.countP_append,
        List.countP_map, List.filter_append, List.length_append, ih]
      have h1 : List.countP ((fun pr : String × Bool => pr.2) ∘
          fun o : RawOption => (o.value, o.selected)) opts
          = (List.filter (fun o => o.selected) opts).length := by
        rw [← List.countP_eq_length_filter]
        rfl
      rw [h1]
      simp
    | opt o =>
      rw [rawPairs, allRawOptions, List.countP_cons, List.filter_cons, ih]
      by_cases h : o.selected = true
      · simp [h]
      · simp [h]

/-- Every raw option contributes its pair to `rawPairs`. -/
theorem raw_mem_rawPairs (children : List SelectChild) (o : RawOption)
    (ho : o ∈ allRawOptions children) : (o.value, o.selected) ∈ rawPairs children := by
  induction children with
  | nil => cases ho
  | cons c rest ih =>
    cases c with
    | optgroup label dis opts =>
      rw [allRawOptions] at ho
      rw [rawPairs]
      rcases List.mem_append.mp ho with h | h
      · exact List.mem_cons_of_mem _ (List.mem_append_left _
          (List.mem_map.mpr ⟨o, h, rfl⟩))
      · exact List.mem_cons_of_mem _ (List.mem_append_right _ (ih h))
    | opt o' =>
      rw [allRawOptions] at ho
      rw [rawPairs]
      rcases List.mem_cons.mp ho with h | h
      · subst h; exact List.mem_cons_self _ _
      · exact List.mem_cons_of_mem _ (ih h)

/-- Selection re-marking does not change the value sequence. -/
theorem getAllValues_mapSel (p : OptionData → Bool) (t : List OptionData) :
    getAllValues (mapSelList p t) = getAllValues t := by
  unfold getAllValues
  rw [flattenOptions_mapSel, List.map_map]
  apply List.map_congr_left
  intro o _
  simp [mapSelOne_value]

/-- With pairwise-distinct values, at most one node carries any given
value. -/
theorem length_filter_value_le_one (l : List OptionData)
    (hl : (l.map fun o => o.value).Nodup) (w : String) :
    (l.filter fun o => o.value == w).length ≤ 1 := by
  rw [← List.countP_eq_length_filter]
  have h1 : l.countP (fun o => o.value == w) =
      (l.map fun o => o.value).countP fun x => x == w := by
    rw [List.countP_map]
    rfl
  have h2 : (l.map fun o => o.value).countP (fun x => x == w) =
      (l.map fun o => o.value).count w := rfl
  rw [h1, h2]
  exact List.nodup_iff_count_le_one.mp hl w

mutual
/-- Re-marking the first `v`-node as selected is the identity when every
`v`-valued node of the subtree is already selected. -/
theorem updateFirstOne_selTrue_id (v : String) :
    ∀ o : OptionData, (∀ n ∈ flattenOne o, n.value = v → n.selected = true) →
      (updateFirstOne v (fun n => { n with selected := true }) o).1 = o
  | .mk vv t l d s p cs lv e i => fun hall => by
    cases h : ((vv : String) == v) with
    | true =>
      rw [updateFirstOne_eq]
      simp only [show ((OptionData.mk vv t l d s p cs lv e i).value == v) = true from h,
        if_true]
      have hm : (OptionData.mk vv t l d s p cs lv e i) ∈
          flattenOne (.mk vv t l d s p cs lv e i) := by
        rw [flattenOne_eq]; exact List.mem_cons_self _ _
      have hvv : vv = v := eq_of_beq h
      have hs : s = true := hall _ hm hvv
      show OptionData.mk vv t l d true p cs lv e i = OptionData.mk vv t l d s p cs lv e i
      rw [hs]
    | false =>
      rw [updateFirstOne_eq]
      simp only [show ((OptionData.mk vv t l d s p cs lv e i).value == v) = false from h,
        Bool.false_eq_true, if_false]
      have hcs := updateFirstList_selTrue_id v cs fun n hn hv =>
        hall n (by rw [flattenOne_eq]; exact List.mem_cons_of_mem _ hn) hv
      show OptionData.mk vv t l d s p
        ((updateFirstList v (fun n => { n with selected := true }) cs).1) lv e i =
        OptionData.mk vv t l d s p cs lv e i
      rw [hcs]

/-- List version of `updateFirstOne_selTrue_id`. -/
theorem updateFirstList_selTrue_id (v : String) :
    ∀ ts : List OptionData,
      (∀ n ∈ flattenOptions ts, n.value = v → n.selected = true) →
      (updateFirstList v (fun n => { n with selected := true }) ts).1 = ts
  | [] => fun _ => rfl
  | o :: os => fun hall => by
    have h1 := updateFirstOne_selTrue_id v o fun n hn hv =>
      hall n (by rw [flattenOptions]; exact List.mem_append_left _ hn) hv
    have h2 := updateFirstList_selTrue_id v os fun n hn hv =>
      hall n (by rw [flattenOptions]; exact List.mem_append_right _ hn) hv
    rw [updateFirstList]
    cases hf : (updateFirstOne v (fun n => { n with selected := true }) o).2 with
    | true =>
      simp only [if_true]
      rw [h1]
    | false =>
      simp only [Bool.false_eq_true, if_false]
      rw [h1, h2]
end

/-- `ssParseOptions` when the native selection is empty. -/
theorem ssParseOptions_eq_nil (cfg : SSConfig) (children : List SelectChild)
    (h : getSelectedValues children = []) :
    ssParseOptions cfg children =
      ((if cfg.nestedOptions && cfg.defaultExpanded
          then expandAllTree (parseSelectElement children cfg.nestedOptions)
          else parseSelectElement children cfg.nestedOptions), none) := by
  simp only [ssParseOptions]
  rw [h]

/-- `ssParseOptions` when the first native selection has the empty
value. -/
theorem ssParseOptions_eq_emptyHead (cfg : SSConfig) (children : List SelectChild)
    (v : String) (tail : List String)
    (h : getSelectedValues children = v :: tail) (hv : (v == "") = true) :
    ssParseOptions cfg children =
      ((if cfg.nestedOptions && cfg.defaultExpanded
          then expandAllTree (parseSelectElement children cfg.nestedOptions)
          else parseSelectElement children cfg.nestedOptions), none) := by
  simp only [ssParseOptions]
  rw [h]
  simp [hv]

/-- `ssParseOptions` when the first native selection is a real value:
the corresponding tree node is marked. -/
theorem ssParseOptions_eq_mark (cfg : SSConfig) (children : List SelectChild)
    (v : String) (tail : List String)
    (h : getSelectedValues children = v :: tail) (hv : (v == "") = false) :
    ssParseOptions cfg children =
      (updateFirst v (fun o => { o with selected := true })
        (if cfg.nestedOptions && cfg.defaultExpanded
          then expandAllTree (parseSelectElement children cfg.nestedOptions)
          else parseSelectElement children cfg.nestedOptions), some v) := by
  simp only [ssParseOptions]
  rw [h]
  simp [hv]

/-- The value/selection profile of the tree `ssParseOptions` builds
before the selection mark. -/
theorem parse_base_pairs (cfg : SSConfig) (children : List SelectChild) :
    (flattenOptions (if cfg.nestedOptions && cfg.defaultExpanded
        then expandAllTree (parseSelectElement children cfg.nestedOptions)
        else parseSelectElement children cfg.nestedOptions)).map valSel =
      (flattenOptions (parseSelectElement children cfg.nestedOptions)).map valSel := by
  cases h : (cfg.nestedOptions && cfg.defaultExpanded) with
  | true => simp only [if_true]; exact expandAllTree_pairs _
  | false => simp

/-- The parse yields the raw selected count. -/
theorem parse_selCount (cfg : SSConfig) (children : List SelectChild) :
    selCount (parseSelectElement children cfg.nestedOptions) =
      ((allRawOptions children).filter fun o => o.selected).length := by
  rw [selCount_eq_pairs_countP]
  unfold parseSelectElement
  cases h : cfg.nestedOptions with
  | true =>
    simp only [if_true]
    rw [parseNested_pairs, rawPairs_countP]
  | false =>
    simp only [Bool.false_eq_true, if_false]
    rw [parseFlat_pairs, List.countP_map, ← List.countP_eq_length_filter]
    rfl

/-- The invariant established by `ssParseOptions` on well-formed items:
distinct values and at most one selected node. -/
theorem ssParseOptions_inv (cfg : SSConfig) (children : List SelectChild)
    (hw : ItemsWF cfg children) :
    (getAllValues (ssParseOptions cfg children).1).Nodup ∧
    selCount (ssParseOptions cfg children).1 ≤ 1 := by
  have hbase_pairs := parse_base_pairs cfg children
  have hbase_vals : getAllValues (if cfg.nestedOptions && cfg.defaultExpanded
      then expandAllTree (parseSelectElement children cfg.nestedOptions)
      else parseSelectElement children cfg.nestedOptions) =
      getAllValues (parseSelectElement children cfg.nestedOptions) := by
    rw [getAllValues_eq_pairs_fst, getAllValues_eq_pairs_fst, hbase_pairs]
  have hbase_count : selCount (if cfg.nestedOptions && cfg.defaultExpanded
      then expandAllTree (parseSelectElement children cfg.nestedOptions)
      else parseSelectElement children cfg.nestedOptions) =
      ((allRawOptions children).filter fun o => o.selected).length := by
    rw [selCount_eq_pairs_countP, hbase_pairs, ← selCount_eq_pairs_countP,
      parse_selCount]
  cases hsel : getSelectedValues children with
  | nil =>
    rw [ssParseOptions_eq_nil cfg children hsel]
    exact ⟨hbase_vals ▸ hw.1, hbase_count ▸ hw.2⟩
  | cons v tail =>
    cases hbe : (v == "") with
    | true =>
      rw [ssParseOptions_eq_emptyHead cfg children v tail hsel hbe]
      exact ⟨hbase_vals ▸ hw.1, hbase_count ▸ hw.2⟩
    | false =>
      rw [ssParseOptions_eq_mark cfg children v tail hsel hbe]
      -- locate the selected raw option whose value heads the list
      have hfil : ∃ r tail', (allRawOptions children).filter (fun o => o.selected)
          = r :: tail' ∧ r.value = v := by
        unfold getSelectedValues at hsel
        cases hf : (allRawOptions children).filter fun o => o.selected with
        | nil => rw [hf] at hsel; exact absurd hsel (by simp)
        | cons r tail' =>
          refine ⟨r, tail', rfl, ?_⟩
          rw [hf] at hsel
          simpa using congrArg (fun l => l.head?) hsel
      rcases hfil with ⟨r, tail', hf, hrv⟩
      have hrmem : r ∈ allRawOptions children ∧ r.selected = true := by
        have : r ∈ (allRawOptions children).filter fun o => o.selected := by
          rw [hf]; exact List.mem_cons_self _ _
        exact ⟨List.mem_of_mem_filter this, by simpa using List.of_mem_filter this⟩
      -- the pair (v, true) occurs in the base tree's profile
      have hpair : ((v, true) : String × Bool) ∈
          (flattenOptions (parseSelectElement children cfg.nestedOptions)).map valSel := by
        unfold parseSelectElement
        cases hn : cfg.nestedOptions with
        | true =>
          simp only [if_true]
          rw [parseNested_pairs]
          have := raw_mem_rawPairs children r hrmem.1
          rw [hrmem.2, hrv] at this
          exact this
        | false =>
          simp only [Bool.false_eq_true, if_false]
          rw [parseFlat_pairs]
          refine List.mem_map.mpr ⟨r, hrmem.1, ?_⟩
          rw [hrmem.2, hrv]
      have hpair1 : ((v, true) : String × Bool) ∈
          (flattenOptions (if cfg.nestedOptions && cfg.defaultExpanded
            then expandAllTree (parseSelectElement children cfg.nestedOptions)
            else parseSelectElement children cfg.nestedOptions)).map valSel := by
        rw [hbase_pairs]; exact hpair
      rcases List.mem_map.mp hpair1 with ⟨n0, hn0mem, hn0⟩
      have hn0v : n0.value = v := congrArg Prod.fst hn0
      have hn0s : n0.selected = true := congrArg Prod.snd hn0
      -- every v-valued node of the base tree is selected
      have hall : ∀ n ∈ flattenOptions (if cfg.nestedOptions && cfg.defaultExpanded
          then expandAllTree (parseSelectElement children cfg.nestedOptions)
          else parseSelectElement children cfg.nestedOptions),
          n.value = v → n.selected = true := by
        intro n hn hnv
        have hnodup1 : ((flattenOptions (if cfg.nestedOptions && cfg.defaultExpanded
            then expandAllTree (parseSelectElement children cfg.nestedOptions)
            else parseSelectElement children cfg.nestedOptions)).map
              fun o => o.value).Nodup := by
          have := hbase_vals ▸ hw.1
          exact this
        have := List.inj_on_of_nodup_map hnodup1 hn hn0mem (by rw [hnv, hn0v])
        rw [this]
        exact hn0s
      have hmark := updateFirstList_selTrue_id v _ hall
      unfold updateFirst
      rw [hmark]
      exact ⟨hbase_vals ▸ hw.1, hbase_count ▸ hw.2⟩

/-- Value preservation of `updateFirst` under flag-only updates. -/
theorem getAllValues_updateFirst (v : String) (f : OptionData → OptionData)
    (hf : ∀ o, (f o).value = o.value ∧ (f o).children = o.children)
    (t : List OptionData) : getAllValues (updateFirst v f t) = getAllValues t :=
  flattenVals_updateFirstList v f hf t

/-- `handleOptionClick` preserves the invariant (it deselects everything
and re-selects at most one node). -/
theorem ssHandleOptionClick_inv (cfg : SSConfig) (v : String) (s : SSState)
    (hs : SSInv s) : SSInv (ssHandleOptionClick cfg v s).1 := by
  have hvals0 : (getAllValues (mapSelList (fun _ => false) s.optionData)).Nodup := by
    rw [getAllValues_mapSel]; exact hs.1
  have hcount0 : selCount (mapSelList (fun _ => false) s.optionData) = 0 := by
    rw [selCount_mapSel]
    simp
  unfold ssHandleOptionClick
  dsimp only
  split
  · exact hs
  · split
    · exact hs
    · split
      · refine ⟨?_, ?_⟩
        · show (getAllValues (updateFirst v (fun n => { n with selected := true })
            (mapSelList (fun _ => false) s.optionData))).Nodup
          rw [getAllValues_updateFirst v (fun n => { n with selected := true })
            (fun n => ⟨rfl, rfl⟩)]
          exact hvals0
        · show selCount (updateFirst v (fun n => { n with selected := true })
            (mapSelList (fun _ => false) s.optionData)) ≤ 1
          have hcf : ∀ n : OptionData,
              selCountOne ({ n with selected := true } : OptionData) ≤ selCountOne n + 1 := by
            intro n
            rw [selCountOne_eq, selCountOne_eq]
            show 1 + selCount n.children ≤ (if n.selected = true then 1 else 0) +
              selCount n.children + 1
            omega
          have hb := selCount_updateFirstList v (fun n => { n with selected := true })
            hcf (mapSelList (fun _ => false) s.optionData)
          unfold updateFirst
          omega
      · refine ⟨hvals0, ?_⟩
        show selCount (mapSelList (fun _ => false) s.optionData) ≤ 1
        omega

/-- `handleOptionsClick` preserves the invariant. -/
theorem ssHandleOptionsClick_inv (cfg : SSConfig) (v : String) (s : SSState)
    (hs : SSInv s) : SSInv (ssHandleOptionsClick cfg v s).1 := by
  unfold ssHandleOptionsClick
  split
  · exact hs
  · split
    · exact hs
    · exact ssHandleOptionClick_inv cfg v s hs

/-- `setValue`'s plain path preserves the invariant: with distinct
values at most one node matches the assigned value. -/
theorem ssSetValueRaw_inv (v : Option String) (s : SSState) (hs : SSInv s) :
    SSInv (ssSetValueRaw v s).1 := by
  unfold ssSetValueRaw
  cases h : (normalizeValue v == s.selectedValue) with
  | true => exact hs
  | false =>
    simp only [Bool.false_eq_true, if_false]
    refine ⟨?_, ?_⟩
    · show (getAllValues (mapSelList (fun n => some n.value == normalizeValue v)
        s.optionData)).Nodup
      rw [getAllValues_mapSel]; exact hs.1
    · show selCount (mapSelList (fun n => some n.value == normalizeValue v)
        s.optionData) ≤ 1
      rw [selCount_mapSel]
      cases hn : normalizeValue v with
      | none =>
        have hfalse : ∀ n ∈ flattenOptions s.optionData,
            (some n.value == (none : Option String)) = (fun _ : OptionData => false) n :=
          fun n _ => rfl
        rw [List.filter_congr hfalse]
        simp
      | some w =>
        have hw : ∀ n ∈ flattenOptions s.optionData,
            (some n.value == some w) = (fun n : OptionData => n.value == w) n :=
          fun n _ => rfl
        rw [List.filter_congr hw]
        exact length_filter_value_le_one _ hs.1 w

/-- `clear` preserves the invariant. -/
theorem ssClear_inv (s : SSState) (hs : SSInv s) : SSInv (ssClear s).1 := by
  unfold ssClear
  cases h : (s.selectedValue == none) with
  | true => exact hs
  | false =>
    simp only [Bool.false_eq_true, if_false]
    exact ssSetValueRaw_inv none s hs

/-- Every well-formed public operation preserves the invariant. -/
theorem ssApplyOp_inv (cfg : SSConfig) (s : SSState) (op : SSOp)
    (hs : SSInv s) (hop : SSOpWF cfg op) : SSInv (ssApplyOp cfg s op) := by
  cases op with
  | click v => exact ssHandleOptionsClick_inv cfg v s hs
  | setVal v =>
    show SSInv (ssSetValue cfg v s).1
    unfold ssSetValue
    cases h : (normalizeValue v == s.selectedValue && cfg.allowDeselect &&
        normalizeValue v != none) with
    | true =>
      simp only [if_true]
      exact ssClear_inv s hs
    | false =>
      simp only [Bool.false_eq_true, if_false]
      exact ssSetValueRaw_inv v s hs
  | clearSel => exact ssClear_inv s hs
  | refreshItems children =>
    show SSInv (ssRefresh cfg children s)
    unfold ssRefresh SSInv
    exact ssParseOptions_inv cfg children hop

/-- The invariant is preserved across any well-formed operation
sequence. -/
theorem ssApplyOps_inv (cfg : SSConfig) (ops : List SSOp) :
    ∀ s : SSState, SSInv s → (∀ op ∈ ops, SSOpWF cfg op) →
      SSInv (ssApplyOps cfg s ops) := by
  induction ops with
  | nil => intro s hs _; exact hs
  | cons op rest ih =>
    intro s hs hops
    show SSInv ((op :: rest).foldl (ssApplyOp cfg) s)
    rw [List.foldl_cons]
    exact ih (ssApplyOp cfg s op)
      (ssApplyOp_inv cfg s op hs (hops op (List.mem_cons_self _ _)))
      fun o ho => hops o (List.mem_cons_of_mem _ ho)

/-! ### C4 — the exclusivity theorem -/

/-- C4: for a single-select built over a well-formed item list (distinct
values — the data model's unique-key invariant — and at most one
natively selected option, as the browser enforces for non-multiple
selects), after any sequence of public operations (option activation,
`setValue`, `clear`, `refresh` against well-formed items) at most one
node in the whole option tree has `selected = true`. -/
theorem singleSelect_exclusivity (cfg : SSConfig) (children : List SelectChild)
    (ops : List SSOp) (hw : ItemsWF cfg children)
    (hops : ∀ op ∈ ops, SSOpWF cfg op) :
    (getSelectedOptions (ssApplyOps cfg (ssInitState cfg children) ops).optionData).length
      ≤ 1 := by
  have h0 : SSInv (ssInitState cfg children) :=
    ssParseOptions_inv cfg children hw
  have h1 := (ssApplyOps_inv cfg ops (ssInitState cfg children) h0 hops).2
  rw [selCount_eq_getSelected] at h1
  exact h1

theorem singleSelect_exclusivity_witness :
    (ItemsWF demoSSConfig c4Items ∧ (∀ op ∈ c4Ops, SSOpWF demoSSConfig op)) ∧
    (getSelectedOptions
        (ssApplyOps demoSSConfig (ssInitState demoSSConfig c4Items) c4Ops).optionData).length
      ≤ 1 :=
  have hw : ItemsWF demoSSConfig c4Items := ⟨by decide, by decide⟩
  have hops : ∀ op ∈ c4Ops, SSOpWF demoSSConfig op := by
    intro op hop
    fin_cases hop
    · trivial
    · trivial
    · exact ⟨by decide, by decide⟩
    · trivial
  ⟨⟨hw, hops⟩, singleSelect_exclusivity demoSSConfig c4Items c4Ops hw hops⟩

/-- A node with no children is unchanged by emptying its child list. -/
theorem eta_children_nil (o : OptionData) (h : o.children = []) :
    ({ o with children := [] } : OptionData) = o := by
  cases o with
  | mk v t l d s p cs lv e i =>
    cases cs with
    | nil => rfl
    | cons a as => exact List.noConfusion h

/-- `updateFirstList` on a cons cell. -/
theorem updateFirstList_cons (v : String) (f : OptionData → OptionData)
    (o : OptionData) (os : List OptionData) :
    updateFirstList v f (o :: os) =
      if (updateFirstOne v f o).2 then ((updateFirstOne v f o).1 :: os, true)
      else ((updateFirstOne v f o).1 :: (updateFirstList v f os).1,
            (updateFirstList v f os).2) := by
  rw [updateFirstList]

/-- `updateFirstList` on a list of leaf siblings: every node keeps its
value, and leafness and parent pointers survive any update that
preserves them on leaves. -/
theorem updateFirstList_leaf_preserve (c : String) (f : OptionData → OptionData)
    (pv : Option String)
    (hf : ∀ o : OptionData, o.children = [] →
      (f o).value = o.value ∧ (f o).parent = o.parent ∧ (f o).children = []) :
    ∀ cs : List OptionData, (∀ x ∈ cs, x.children = [] ∧ x.parent = pv) →
      (updateFirstList c f cs).1.map (fun x => x.value) = cs.map (fun x => x.value) ∧
      ∀ x ∈ (updateFirstList c f cs).1, x.children = [] ∧ x.parent = pv
  | [], _ => ⟨rfl, fun x hx => absurd hx (List.not_mem_nil x)⟩
  | o :: os, h => by
    have ho := h o (List.mem_cons_self _ _)
    have ih := updateFirstList_leaf_preserve c f pv hf os
      (fun x hx => h x (List.mem_cons_of_mem _ hx))
    cases hb : (o.value == c) with
    | true =>
      have hone : updateFirstOne c f o = (f o, true) := by
        rw [updateFirstOne_eq, hb]
        rfl
      have hcons : updateFirstList c f (o :: os) = (f o :: os, true) := by
        rw [updateFirstList_cons, hone]
        rfl
      rw [hcons]
      refine ⟨?_, ?_⟩
      · show (f o :: os).map (fun x => x.value) = (o :: os).map (fun x => x.value)
        rw [List.map_cons, List.map_cons, (hf o ho.1).1]
      · show ∀ x ∈ f o :: os, x.children = [] ∧ x.parent = pv
        intro x hx
        rcases List.mem_cons.mp hx with rfl | hx2
        · exact ⟨(hf o ho.1).2.2, by rw [(hf o ho.1).2.1, ho.2]⟩
        · exact h x (List.mem_cons_of_mem _ hx2)
    | false =>
      have hone : updateFirstOne c f o = (o, false) := by
        rw [updateFirstOne_eq, hb, ho.1]
        have h2 : (updateFirstList c f []).1 = ([] : List OptionData) := rfl
        rw [h2, eta_children_nil o ho.1]
        rfl
      have hcons : updateFirstList c f (o :: os) =
          (o :: (updateFirstList c f os).1, (updateFirstList c f os).2) := by
        rw [updateFirstList_cons, hone]
        rfl
      rw [hcons]
      refine ⟨?_, ?_⟩
      · show (o :: (updateFirstList c f os).1).map (fun x => x.value) =
          (o :: os).map (fun x => x.value)
        rw [List.map_cons, List.map_cons, ih.1]
      · show ∀ x ∈ o :: (updateFirstList c f os).1, x.children = [] ∧ x.parent = pv
        intro x hx
        rcases List.mem_cons.mp hx with rfl | hx2
        · exact ho
        · exact ih.2 x hx2

/-- `updateFirst` on a singleton forest. -/
theorem updateFirst_singleton (c : String) (f : OptionData → OptionData)
    (q : OptionData) :
    updateFirst c f [q] = [(updateFirstOne c f q).1] := by
  unfold updateFirst
  rw [updateFirstList_cons]
  cases h2 : (updateFirstOne c f q).2 with
  | true => rfl
  | false => rfl

/-- In a list of nodes that all share one parent pointer, finding any
present value and reading its parent yields that pointer. -/
theorem find_parent_of_mem (c : String) (pv : Option String) :
    ∀ cs : List OptionData, (∀ x ∈ cs, x.parent = pv) →
      c ∈ cs.map (fun x => x.value) →
      ((cs.find? fun o => o.value == c).bind fun o => o.parent) = pv
  | [], _, hmem => absurd hmem (List.not_mem_nil c)
  | o :: os, h, hmem => by
    cases hb : (o.value == c) with
    | true =>
      rw [List.find?]
      simp only [hb]
      exact h o (List.mem_cons_self _ _)
    | false =>
      rw [List.find?]
      simp only [hb]
      refine find_parent_of_mem c pv os (fun x hx => h x (List.mem_cons_of_mem _ hx)) ?_
      rw [List.map_cons] at hmem
      rcases List.mem_cons.mp hmem with heq | h2
      · have heq' : c = o.value := heq
        rw [heq', beq_self_eq_true] at hb
        exact Bool.noConfusion hb
      · exact h2

/-- A null parent key makes `updateParentState` a no-op at any fuel. -/
theorem updateParentState_none (fuel : Nat) (t : List OptionData) :
    updateParentState fuel none t = t := by
  cases fuel with
  | zero => rfl
  | succ n => rfl

/-- The unfolding of one `updateParentState` level once the parent has
been found. -/
theorem updateParentState_succ_found (m : Nat) (pv : String) (t : List OptionData)
    (parent : OptionData) (hfind : findOption t pv = some parent) :
    updateParentState (m + 1) (some pv) t =
      if parent.children.isEmpty then t
      else
        updateParentState m parent.parent
          (updateFirst pv (fun p =>
            if (parent.children.filter fun c => c.selected).length = 0 then
              { p with selected := false, indeterminate := false }
            else if (parent.children.filter fun c => c.selected).length =
                parent.children.length then
              { p with selected := true, indeterminate := false }
            else { p with selected := false, indeterminate := true }) t) := by
  simp only [updateParentState]
  rw [hfind]

/-- One full `updateParentState` pass over a singleton forest whose
root is the keyed parent: the root's flags are recomputed from its
direct children by the source's count-based tri-state rule, and the
recursion stops because the root is top-level. -/
theorem updateParentStateFrom_singleton (q1 : OptionData)
    (hpar : q1.parent = none) (hne : q1.children ≠ []) :
    updateParentStateFrom [q1] (some q1.value) =
      [if (q1.children.filter fun c => c.selected).length = 0 then
          { q1 with selected := false, indeterminate := false }
        else if (q1.children.filter fun c => c.selected).length = q1.children.length then
          { q1 with selected := true, indeterminate := false }
        else { q1 with selected := false, indeterminate := true }] := by
  have hfl : flattenOptions [q1] = q1 :: flattenOptions q1.children := by
    rw [flattenOptions_cons, show flattenOptions [] = ([] : List OptionData) from rfl,
        List.append_nil]
  have hlen : (flattenOptions [q1]).length = (flattenOptions q1.children).length + 1 := by
    rw [hfl]
    rfl
  have hfind : findOption [q1] q1.value = some q1 := by
    unfold findOption
    rw [hfl, List.find?]
    simp only [beq_self_eq_true]
  have hie : q1.children.isEmpty = false := by
    cases h : q1.children with
    | nil => exact absurd h hne
    | cons a l => rfl
  unfold updateParentStateFrom
  rw [hlen, updateParentState_succ_found (flattenOptions q1.children).length q1.value
    [q1] q1 hfind, hie]
  simp only [Bool.false_eq_true, if_false]
  have hstop : ∀ t2 : List OptionData,
      updateParentState (flattenOptions q1.children).length q1.parent t2 = t2 := by
    rw [hpar]
    exact fun t2 => updateParentState_none _ t2
  rw [hstop, updateFirst_singleton, updateFirstOne_eq, beq_self_eq_true]
  rfl

/-- The node produced by the tri-state update rule keeps the group's
shape and satisfies the tri-state flags property. -/
theorem triApply_props (p q1 : OptionData)
    (hv : q1.value = p.value) (hpar : q1.parent = none)
    (hmap : q1.children.map (fun x => x.value) = p.children.map (fun x => x.value))
    (hch : ∀ x ∈ q1.children, x.children = [] ∧ x.parent = some p.value) :
    triShape p (if (q1.children.filter fun c => c.selected).length = 0 then
        { q1 with selected := false, indeterminate := false }
      else if (q1.children.filter fun c => c.selected).length = q1.children.length then
        { q1 with selected := true, indeterminate := false }
      else { q1 with selected := false, indeterminate := true }) ∧
    triFlags (if (q1.children.filter fun c => c.selected).length = 0 then
        { q1 with selected := false, indeterminate := false }
      else if (q1.children.filter fun c => c.selected).length = q1.children.length then
        { q1 with selected := true, indeterminate := false }
      else { q1 with selected := false, indeterminate := true }) := by
  by_cases h0 : (q1.children.filter fun c => c.selected).length = 0
  · rw [if_pos h0]
    refine ⟨⟨hv, hpar, hmap, hch⟩, ?_, ?_, ?_⟩
    · intro _
      exact ⟨rfl, rfl⟩
    · intro hpos _
      have hpos' : 0 < (q1.children.filter fun c => c.selected).length := hpos
      exact absurd h0 (by omega)
    · intro hpos _
      have hpos' : 0 < (q1.children.filter fun c => c.selected).length := hpos
      exact absurd h0 (by omega)
  · rw [if_neg h0]
    by_cases hN : (q1.children.filter fun c => c.selected).length = q1.children.length
    · rw [if_pos hN]
      refine ⟨⟨hv, hpar, hmap, hch⟩, ?_, ?_, ?_⟩
      · intro hk0
        have hk0' : (q1.children.filter fun c => c.selected).length = 0 := hk0
        exact absurd hk0' h0
      · intro _ _
        exact ⟨rfl, rfl⟩
      · intro _ hlt
        have hlt' : (q1.children.filter fun c => c.selected).length <
            q1.children.length := hlt
        exact absurd hN (by omega)
    · rw [if_neg hN]
      refine ⟨⟨hv, hpar, hmap, hch⟩, ?_, ?_, ?_⟩
      · intro hk0
        have hk0' : (q1.children.filter fun c => c.selected).length = 0 := hk0
        exact absurd hk0' h0
      · intro _ hkN
        have hkN' : (q1.children.filter fun c => c.selected).length =
            q1.children.length := hkN
        exact absurd hkN' hN
      · intro _ _
        exact ⟨rfl, rfl⟩

/-- One child mutation followed by the parent recomputation, for any
flag update that preserves leaves' identity fields: the singleton group
keeps its shape and ends with tri-state-correct flags. -/
theorem cascadeStep_singleton (f : OptionData → OptionData) (c : String)
    (p q : OptionData)
    (hf : ∀ o : OptionData, o.children = [] →
      (f o).value = o.value ∧ (f o).parent = o.parent ∧ (f o).children = [])
    (hq : triShape p q) (hpne : p.children ≠ [])
    (hpv : p.value ∉ p.children.map fun x => x.value)
    (hop : c ∈ p.children.map fun x => x.value) :
    ∃ q', updateParentStateFrom (updateFirst c f [q])
        ((findOption [q] c).bind fun o => o.parent) = [q'] ∧
      triShape p q' ∧ triFlags q' := by
  obtain ⟨hv, hpar, hmap, hch⟩ := hq
  have hleaf : ∀ x ∈ q.children, x.children = [] := fun x hx => (hch x hx).1
  have hqmem : c ∈ q.children.map fun x => x.value := by rw [hmap]; exact hop
  have hqne : q.children ≠ [] := by
    intro h
    apply hpne
    have h2 := hmap
    rw [h] at h2
    exact List.map_eq_nil.mp h2.symm
  have hbe : (q.value == c) = false := by
    rw [beq_eq_false_iff_ne]
    intro hcc
    exact hpv (by rw [← hv, hcc]; exact hop)
  have hflat : flattenOptions [q] = q :: q.children := by
    rw [flattenOptions_cons, show flattenOptions [] = ([] : List OptionData) from rfl,
        List.append_nil, flattenOptions_of_leaves q.children hleaf]
  have hfindc : ((findOption [q] c).bind fun o => o.parent) = some p.value := by
    unfold findOption
    rw [hflat, List.find?]
    simp only [hbe]
    exact find_parent_of_mem c (some p.value) q.children (fun x hx => (hch x hx).2) hqmem
  have hupd := updateFirstList_leaf_preserve c f (some p.value) hf q.children hch
  have ht1 : updateFirst c f [q] =
      [{ q with children := (updateFirstList c f q.children).1 }] := by
    rw [updateFirst_singleton, updateFirstOne_eq, hbe]
    rfl
  have hq1v : ({ q with children := (updateFirstList c f q.children).1 } :
      OptionData).value = p.value := hv
  have hq1par : ({ q with children := (updateFirstList c f q.children).1 } :
      OptionData).parent = none := hpar
  have hq1map : ({ q with children := (updateFirstList c f q.children).1 } :
      OptionData).children.map (fun x => x.value) =
      p.children.map (fun x => x.value) := hupd.1.trans hmap
  have hq1ne : ({ q with children := (updateFirstList c f q.children).1 } :
      OptionData).children ≠ [] := by
    intro h
    have h' : (updateFirstList c f q.children).1 = [] := h
    exact hqne (List.map_eq_nil.mp (by rw [← hupd.1, h']; rfl))
  rw [hfindc, ht1,
    show (some p.value : Option String) =
      some ({ q with children := (updateFirstList c f q.children).1 } :
        OptionData).value from by rw [hq1v],
    updateParentStateFrom_singleton _ hq1par hq1ne]
  have hprops := triApply_props p
    { q with children := (updateFirstList c f q.children).1 }
    hq1v hq1par hq1map hupd.2
  exact ⟨_, rfl, hprops.1, hprops.2⟩

/-- Every public child toggle preserves the group's shape and
establishes the tri-state flags. -/
theorem triStep_preserves (cascade : Bool) (p q : OptionData) (op : String × Bool)
    (hq : triShape p q) (hpne : p.children ≠ [])
    (hpv : p.value ∉ p.children.map fun x => x.value)
    (hop : op.1 ∈ p.children.map fun x => x.value) :
    ∃ q', triStep cascade [q] op = [q'] ∧ triShape p q' ∧ triFlags q' := by
  unfold triStep selectWithCascade deselectWithCascade
  cases hb : op.2 with
  | true =>
    simp only [if_true]
    refine cascadeStep_singleton _ op.1 p q ?_ ⟨hq.1, hq.2.1, hq.2.2.1, hq.2.2.2⟩
      hpne hpv hop
    intro o ho
    rw [ho, show (cascade && !List.isEmpty ([] : List OptionData)) = false from by simp]
    simp only [Bool.false_eq_true, if_false]
    exact ⟨trivial, trivial, trivial⟩
  | false =>
    simp only [Bool.false_eq_true, if_false]
    refine cascadeStep_singleton _ op.1 p q ?_ ⟨hq.1, hq.2.1, hq.2.2.1, hq.2.2.2⟩
      hpne hpv hop
    intro o ho
    rw [ho, show (cascade && !List.isEmpty ([] : List OptionData)) = false from by simp]
    simp only [Bool.false_eq_true, if_false]
    exact ⟨trivial, trivial, trivial⟩

/-- The shape-and-flags invariant survives any further toggle
sequence. -/
theorem triState_aux (cascade : Bool) (p : OptionData)
    (hpne : p.children ≠ []) (hpv : p.value ∉ p.children.map fun x => x.value) :
    ∀ ops : List (String × Bool),
      (∀ op ∈ ops, op.1 ∈ p.children.map fun x => x.value) →
      ∀ q : OptionData, triShape p q → triFlags q →
      ∃ q', ops.foldl (triStep cascade) [q] = [q'] ∧ triShape p q' ∧ triFlags q'
  | [], _, q, hsh, hfl => ⟨q, rfl, hsh, hfl⟩
  | op :: rest, hmem, q, hsh, hfl => by
    obtain ⟨q1, hstep, hsh1, hfl1⟩ :=
      triStep_preserves cascade p q op hsh hpne hpv (hmem op (List.mem_cons_self _ _))
    rw [List.foldl_cons, hstep]
    exact triState_aux cascade p hpne hpv rest
      (fun o ho => hmem o (List.mem_cons_of_mem _ ho)) q1 hsh1 hfl1

/-- C3: take any top-level group of N leaf children (distinct from the
group's own key) and any nonempty sequence of child select/deselect
toggles, each performed through the source cascade functions (which end
with `updateParentState` on the toggled child's parent key). The result
is the same group with its children's values intact, and its
`{selected, indeterminate}` flags agree with the final count k of
selected children: k = 0 ⇒ both false; k = N ⇒ selected only;
0 < k < N ⇒ indeterminate only — independently of the toggle order. -/
theorem tri_state_parent_recomputation (cascade : Bool) (p : OptionData)
    (ops : List (String × Bool))
    (hparent : p.parent = none)
    (hchild : ∀ x ∈ p.children, x.children = [] ∧ x.parent = some p.value)
    (hpne : p.children ≠ [])
    (hpv : p.value ∉ p.children.map fun x => x.value)
    (hops : ops ≠ [])
    (hmem : ∀ op ∈ ops, op.1 ∈ p.children.map fun x => x.value) :
    ∃ q, ops.foldl (triStep cascade) [p] = [q] ∧ triShape p q ∧ triFlags q := by
  obtain ⟨op0, rest, rfl⟩ := List.exists_cons_of_ne_nil hops
  obtain ⟨q1, hstep, hsh1, hfl1⟩ :=
    triStep_preserves cascade p p op0 ⟨rfl, hparent, rfl, hchild⟩ hpne hpv
      (hmem op0 (List.mem_cons_self _ _))
  rw [List.foldl_cons, hstep]
  exact triState_aux cascade p hpne hpv rest
    (fun o ho => hmem o (List.mem_cons_of_mem _ ho)) q1 hsh1 hfl1

theorem tri_state_parent_recomputation_witness :
    (c3Group.parent = none ∧
      (∀ x ∈ c3Group.children, x.children = [] ∧ x.parent = some c3Group.value) ∧
      c3Group.children ≠ [] ∧
      c3Group.value ∉ c3Group.children.map (fun x => x.value) ∧
      ([(("a" : String), true)] : List (String × Bool)) ≠ [] ∧
      ∀ op ∈ ([(("a" : String), true)] : List (String × Bool)),
        op.1 ∈ c3Group.children.map fun x => x.value) ∧
    ∃ q, ([(("a" : String), true)] : List (String × Bool)).foldl
        (triStep true) [c3Group] = [q] ∧ triShape c3Group q ∧ triFlags q :=
  have h1 : c3Group.parent = none := rfl
  have h2 : ∀ x ∈ c3Group.children, x.children = [] ∧ x.parent = some c3Group.value := by
    intro x hx
    fin_cases hx
    · exact ⟨rfl, rfl⟩
    · exact ⟨rfl, rfl⟩
  have h3 : c3Group.children ≠ [] := by
    intro h
    exact List.noConfusion h
  have h4 : c3Group.value ∉ c3Group.children.map (fun x => x.value) := by decide
  have h5 : ([(("a" : String), true)] : List (String × Bool)) ≠ [] := by decide
  have h6 : ∀ op ∈ ([(("a" : String), true)] : List (String × Bool)),
      op.1 ∈ c3Group.children.map fun x => x.value := by decide
  ⟨⟨h1, h2, h3, h4, h5, h6⟩,
    tri_state_parent_recomputation true c3Group [("a", true)] h1 h2 h3 h4 h5 h6⟩

end CustomSelect
